import Mathlib

set_option maxRecDepth 100000

/-!
Shallow embedding of the `md3_rs` MD3 model decoder (`src/lib.rs`) and a
verification of the specification's claims about it.

Modelling conventions:
* The input buffer is a `List Nat` of bytes; the `Cursor` position is a `Nat`.
* `i16`/`i32` values are `Int` (two's-complement interpretation of the raw
  little-endian bytes); `f32` values carry no arithmetic anywhere in the
  decoder, so they are modelled as their raw 32-bit little-endian patterns
  (a `Nat` below `2^32`).
* Rust `String` values are modelled as their UTF-8 byte lists.
* Every fallible step returns `Except DecErr`.  The source calls `.unwrap()`
  on primitive reads and on `String::from_utf8`, so those failures are Rust
  panics; they are modelled by the dedicated error values `DecErr.eofPanic`
  and `DecErr.utf8Panic`, while the only error the source *returns* from
  `from_bytes` (the magic mismatch) is `DecErr.invalidMagic`.
* `v as u64` / `v as usize` on an `i32` sign-extends on a 64-bit target,
  modelled by `i32ToU64`.  `u64` addition of cursor positions wraps,
  modelled by `addOfs`.
-/

namespace MD3

/-- Failure modes of the decode.  `eofPanic` models the panic raised by
`.unwrap()` on an `UnexpectedEof` io error inside a primitive read;
`utf8Panic` models the panic raised by `.unwrap()` on a failed
`String::from_utf8` conversion; `invalidMagic` models the io error value
(`InvalidData`, "MD3 magic not matching") that `from_bytes` returns. -/
inductive DecErr where
  | eofPanic : DecErr
  | utf8Panic : DecErr
  | invalidMagic : DecErr
deriving DecidableEq, Repr

deriving instance DecidableEq for Except

/-- The reader monad: a buffer of bytes plus a cursor position, with
fail-fast error propagation (matching `Cursor<&[u8]>` threading). -/
def M (α : Type) : Type := List Nat → Nat → Except DecErr (α × Nat)

def M.pure {α : Type} (a : α) : M α := fun _ p => .ok (a, p)

def M.bind {α β : Type} (x : M α) (f : α → M β) : M β := fun buf p =>
  match x buf p with
  | .ok (a, q) => f a buf q
  | .error e => .error e

instance : Monad M where
  pure := M.pure
  bind := M.bind

def M.fail {α : Type} (e : DecErr) : M α := fun _ _ => .error e

/-- `buff.position()`. -/
def getPos : M Nat := fun _ p => .ok (p, p)

/-- `buff.set_position(q)`. -/
def setPos (q : Nat) : M Unit := fun _ _ => .ok ((), q)

@[simp] theorem bind_eq {α β : Type} (x : M α) (f : α → M β) :
    (x >>= f) = M.bind x f := rfl

@[simp] theorem pure_eq {α : Type} (a : α) : (Pure.pure a : M α) = M.pure a := rfl

/-- Sign-extending cast `i32 as u64` (equally `i32 as usize` on 64-bit). -/
def i32ToU64 (v : Int) : Nat := (v % 18446744073709551616).toNat

/-- Wrapping `u64` addition of a cursor base and a sign-extended offset,
as in `surface_start + ofs as u64`. -/
def addOfs (base : Nat) (ofs : Int) : Nat :=
  (base + i32ToU64 ofs) % 18446744073709551616

/-- Two's-complement reading of a 16-bit pattern. -/
def toSigned16 (u : Nat) : Int :=
  if u % 65536 < 32768 then ((u % 65536 : Nat) : Int)
  else ((u % 65536 : Nat) : Int) - 65536

/-- Two's-complement reading of a 32-bit pattern. -/
def toSigned32 (u : Nat) : Int :=
  if u % 4294967296 < 2147483648 then ((u % 4294967296 : Nat) : Int)
  else ((u % 4294967296 : Nat) : Int) - 4294967296

/-- `buff.read_u8().unwrap()`: one byte at the cursor, or the EOF panic. -/
def read_u8 : M Nat := fun buf p =>
  match buf.drop p with
  | [] => .error .eofPanic
  | b :: _ => .ok (b, p + 1)

/-- `Md3::read_s16`: `read_i16::<LittleEndian>().unwrap()`. -/
def read_s16 : M Int := fun buf p =>
  match buf.drop p with
  | b0 :: b1 :: _ => .ok (toSigned16 (b0 + 256 * b1), p + 2)
  | _ => .error .eofPanic

/-- `Md3::read_s32`: `read_i32::<LittleEndian>().unwrap()`. -/
def read_s32 : M Int := fun buf p =>
  match buf.drop p with
  | b0 :: b1 :: b2 :: b3 :: _ =>
      .ok (toSigned32 (b0 + 256 * b1 + 65536 * b2 + 16777216 * b3), p + 4)
  | _ => .error .eofPanic

/-- `Md3::read_f32`: the four little-endian bytes of the float, kept as the
raw 32-bit pattern (the decoder performs no float arithmetic). -/
def read_f32 : M Nat := fun buf p =>
  match buf.drop p with
  | b0 :: b1 :: b2 :: b3 :: _ =>
      .ok (b0 + 256 * b1 + 65536 * b2 + 16777216 * b3, p + 4)
  | _ => .error .eofPanic

/-- Is `b` a UTF-8 continuation byte (`0x80..=0xBF`)? -/
def isCont (b : Nat) : Bool := 128 ≤ b && b ≤ 191

/-- Embedding of Rust's `String::from_utf8` validity check (standard UTF-8:
no overlongs, no surrogates, max `U+10FFFF`). -/
def validUtf8 : List Nat → Bool
  | [] => true
  | b :: r =>
    if b ≤ 127 then validUtf8 r
    else if 194 ≤ b && b ≤ 223 then
      match r with
      | c :: r2 => isCont c && validUtf8 r2
      | [] => false
    else if b = 224 then
      match r with
      | c :: d :: r3 => (160 ≤ c && c ≤ 191) && isCont d && validUtf8 r3
      | _ => false
    else if (225 ≤ b && b ≤ 236) || b = 238 || b = 239 then
      match r with
      | c :: d :: r3 => isCont c && isCont d && validUtf8 r3
      | _ => false
    else if b = 237 then
      match r with
      | c :: d :: r3 => (128 ≤ c && c ≤ 159) && isCont d && validUtf8 r3
      | _ => false
    else if b = 240 then
      match r with
      | c :: d :: e :: r4 => (144 ≤ c && c ≤ 191) && isCont d && isCont e && validUtf8 r4
      | _ => false
    else if 241 ≤ b && b ≤ 243 then
      match r with
      | c :: d :: e :: r4 => isCont c && isCont d && isCont e && validUtf8 r4
      | _ => false
    else if b = 244 then
      match r with
      | c :: d :: e :: r4 => (128 ≤ c && c ≤ 143) && isCont d && isCont e && validUtf8 r4
      | _ => false
    else false

/-- The byte-by-byte loop of `read_string`: `len` calls of
`read_u8().unwrap()` collected in order. -/
def read_bytes : Nat → M (List Nat)
  | 0 => M.pure []
  | n + 1 => do
    let b ← read_u8
    let rest ← read_bytes n
    Pure.pure (b :: rest)

/-- `Md3::read_string(buff, len)`: read exactly `len` bytes, truncate at the
first NUL, and `String::from_utf8(..).unwrap()` the prefix. -/
def read_string (len : Nat) : M (List Nat) := do
  let bytes ← read_bytes len
  let s := bytes.takeWhile (fun b => b != 0)
  if validUtf8 s then Pure.pure s else M.fail .utf8Panic

def MD3_MAGIC : Int := 0x33504449
def MAX_QPATH : Nat := 64

structure Vec3 where
  x : Nat
  y : Nat
  z : Nat
deriving DecidableEq, Repr

structure Md3Header where
  ident : Int
  version : Int
  name : List Nat
  flags : Int
  num_frames : Int
  num_tags : Int
  num_surfaces : Int
  num_skins : Int
  ofs_frames : Int
  ofs_tags : Int
  ofs_surfaces : Int
  ofs_eof : Int
deriving DecidableEq, Repr

structure Frame where
  min_bounds : Vec3
  max_bounds : Vec3
  local_origin : Vec3
  radius : Nat
  name : List Nat
deriving DecidableEq, Repr

structure Tag where
  name : List Nat
  origin : Vec3
  axis : Vec3 × Vec3 × Vec3
deriving DecidableEq, Repr

structure SurfaceHeader where
  ident : Int
  name : List Nat
  flags : Int
  num_frames : Int
  num_shaders : Int
  num_verts : Int
  num_triangles : Int
  ofs_triangles : Int
  ofs_shaders : Int
  ofs_st : Int
  ofs_xyznormal : Int
  ofs_end : Int
deriving DecidableEq, Repr

structure Shader where
  name : List Nat
  shader_index : Int
deriving DecidableEq, Repr

structure Triangle where
  indexes : Int × Int × Int
deriving DecidableEq, Repr

structure TexCoord where
  st : Nat × Nat
deriving DecidableEq, Repr

structure Vertex where
  x : Int
  y : Int
  z : Int
  normal : Int
deriving DecidableEq, Repr

structure Surface where
  header : SurfaceHeader
  shaders : List Shader
  triangles : List Triangle
  tex_coords : List TexCoord
  vertices : List (List Vertex)
deriving DecidableEq, Repr

structure Md3 where
  header : Md3Header
  frames : List Frame
  tags : List Tag
  surfaces : List Surface
deriving DecidableEq, Repr

/-- `Md3::read_vec3`. -/
def read_vec3 : M Vec3 := do
  let x ← read_f32
  let y ← read_f32
  let z ← read_f32
  Pure.pure ⟨x, y, z⟩

/-- `Md3::read_many`: run `reader` `count` times, collecting in order.  The
count is already cast from `i32` to `usize` by the caller. -/
def read_many {α : Type} (reader : M α) : Nat → M (List α)
  | 0 => M.pure []
  | n + 1 => do
    let a ← reader
    let rest ← read_many reader n
    Pure.pure (a :: rest)

/-- `Md3::read_md3_header`. -/
def read_md3_header : M Md3Header := do
  let ident ← read_s32
  let version ← read_s32
  let name ← read_string MAX_QPATH
  let flags ← read_s32
  let num_frames ← read_s32
  let num_tags ← read_s32
  let num_surfaces ← read_s32
  let num_skins ← read_s32
  let ofs_frames ← read_s32
  let ofs_tags ← read_s32
  let ofs_surfaces ← read_s32
  let ofs_eof ← read_s32
  Pure.pure ⟨ident, version, name, flags, num_frames, num_tags, num_surfaces,
    num_skins, ofs_frames, ofs_tags, ofs_surfaces, ofs_eof⟩

/-- `Md3::read_frame`. -/
def read_frame : M Frame := do
  let min_bounds ← read_vec3
  let max_bounds ← read_vec3
  let local_origin ← read_vec3
  let radius ← read_f32
  let name ← read_string 16
  Pure.pure ⟨min_bounds, max_bounds, local_origin, radius, name⟩

/-- `Md3::read_tag`. -/
def read_tag : M Tag := do
  let name ← read_string MAX_QPATH
  let origin ← read_vec3
  let a0 ← read_vec3
  let a1 ← read_vec3
  let a2 ← read_vec3
  Pure.pure ⟨name, origin, (a0, a1, a2)⟩

/-- `Md3::read_surface_header`. -/
def read_surface_header : M SurfaceHeader := do
  let ident ← read_s32
  let name ← read_string MAX_QPATH
  let flags ← read_s32
  let num_frames ← read_s32
  let num_shaders ← read_s32
  let num_verts ← read_s32
  let num_triangles ← read_s32
  let ofs_triangles ← read_s32
  let ofs_shaders ← read_s32
  let ofs_st ← read_s32
  let ofs_xyznormal ← read_s32
  let ofs_end ← read_s32
  Pure.pure ⟨ident, name, flags, num_frames, num_shaders, num_verts,
    num_triangles, ofs_triangles, ofs_shaders, ofs_st, ofs_xyznormal, ofs_end⟩

/-- `Md3::read_shader`. -/
def read_shader : M Shader := do
  let name ← read_string MAX_QPATH
  let shader_index ← read_s32
  Pure.pure ⟨name, shader_index⟩

/-- `Md3::read_triangle`. -/
def read_triangle : M Triangle := do
  let i0 ← read_s32
  let i1 ← read_s32
  let i2 ← read_s32
  Pure.pure ⟨(i0, i1, i2)⟩

/-- `Md3::read_tex_coord`. -/
def read_tex_coord : M TexCoord := do
  let s ← read_f32
  let t ← read_f32
  Pure.pure ⟨(s, t)⟩

/-- `Md3::read_vertex`. -/
def read_vertex : M Vertex := do
  let x ← read_s16
  let y ← read_s16
  let z ← read_s16
  let normal ← read_s16
  Pure.pure ⟨x, y, z, normal⟩

/-- `Md3::read_surface`.  Note that the source records `surface_start`, seeks
to `surface_start + ofs` for each sub-array, and finishes with the cursor at
the end of the vertex table — it never seeks to `surface_start + ofs_end`. -/
def read_surface : M Surface := do
  let surface_start ← getPos
  let surface_header ← read_surface_header
  setPos (addOfs surface_start surface_header.ofs_shaders)
  let shaders ← read_many read_shader (i32ToU64 surface_header.num_shaders)
  setPos (addOfs surface_start surface_header.ofs_triangles)
  let triangles ← read_many read_triangle (i32ToU64 surface_header.num_triangles)
  setPos (addOfs surface_start surface_header.ofs_st)
  let tex_coords ← read_many read_tex_coord (i32ToU64 surface_header.num_verts)
  setPos (addOfs surface_start surface_header.ofs_xyznormal)
  let vertices ← read_many
    (read_many read_vertex (i32ToU64 surface_header.num_verts))
    (i32ToU64 surface_header.num_frames)
  Pure.pure ⟨surface_header, shaders, triangles, tex_coords, vertices⟩

/-- The body of `Md3::from_bytes` after a successful magic check: reset the
cursor and decode the header, frames, tags and surfaces sections. -/
def decode_body : M Md3 := do
  setPos 0
  let md3_header ← read_md3_header
  setPos (i32ToU64 md3_header.ofs_frames)
  let frames ← read_many read_frame (i32ToU64 md3_header.num_frames)
  setPos (i32ToU64 md3_header.ofs_tags)
  let tags ← read_many read_tag (i32ToU64 md3_header.num_tags)
  setPos (i32ToU64 md3_header.ofs_surfaces)
  let surfaces ← read_many read_surface (i32ToU64 md3_header.num_surfaces)
  Pure.pure ⟨md3_header, frames, tags, surfaces⟩

/-- `Md3::from_bytes` as a reader action: check the magic, then decode. -/
def from_bytes_m : M Md3 :=
  M.bind read_s32 (fun magic =>
    if magic = MD3_MAGIC then decode_body else M.fail .invalidMagic)

/-- `Md3::from_bytes`: run the decode from position 0 on the given buffer. -/
def from_bytes (bytes : List Nat) : Except DecErr Md3 :=
  match from_bytes_m bytes 0 with
  | .ok (m, _) => .ok m
  | .error e => .error e

/-! ## A reference encoder for the layout of spec §6

The encoder below is *modelled from the spec's §6 byte layout* (all integers
little-endian, fields in the listed order, names NUL-padded to their fixed
widths, sections tightly packed in file order); it exists to state the
round-trip property. -/

/-- Little-endian bytes of a 32-bit pattern. -/
def encodeU32 (u : Nat) : List Nat :=
  [u % 256, u / 256 % 256, u / 65536 % 256, u / 16777216 % 256]

/-- Little-endian bytes of an `i32` (two's complement). -/
def encodeI32 (v : Int) : List Nat := encodeU32 (v % 4294967296).toNat

/-- Little-endian bytes of an `i16` (two's complement). -/
def encodeI16 (v : Int) : List Nat :=
  [(v % 65536).toNat % 256, (v % 65536).toNat / 256 % 256]

/-- Little-endian bytes of an `f32` bit pattern. -/
def encodeF32 (u : Nat) : List Nat := encodeU32 u

/-- A name NUL-padded to its fixed width. -/
def encodeName (w : Nat) (name : List Nat) : List Nat :=
  name ++ List.replicate (w - name.length) 0

def encodeVec3 (v : Vec3) : List Nat :=
  encodeF32 v.x ++ encodeF32 v.y ++ encodeF32 v.z

/-- Concatenated encodings of a list of records, in order. -/
def encMany {α : Type} (enc : α → List Nat) : List α → List Nat
  | [] => []
  | x :: xs => enc x ++ encMany enc xs

def encodeHeader (h : Md3Header) : List Nat :=
  encodeI32 h.ident ++ encodeI32 h.version ++ encodeName 64 h.name ++
  encodeI32 h.flags ++ encodeI32 h.num_frames ++ encodeI32 h.num_tags ++
  encodeI32 h.num_surfaces ++ encodeI32 h.num_skins ++ encodeI32 h.ofs_frames ++
  encodeI32 h.ofs_tags ++ encodeI32 h.ofs_surfaces ++ encodeI32 h.ofs_eof

def encodeFrame (f : Frame) : List Nat :=
  encodeVec3 f.min_bounds ++ encodeVec3 f.max_bounds ++
  encodeVec3 f.local_origin ++ encodeF32 f.radius ++ encodeName 16 f.name

def encodeTag (t : Tag) : List Nat :=
  encodeName 64 t.name ++ encodeVec3 t.origin ++ encodeVec3 t.axis.1 ++
  encodeVec3 t.axis.2.1 ++ encodeVec3 t.axis.2.2

def encodeSurfaceHeader (h : SurfaceHeader) : List Nat :=
  encodeI32 h.ident ++ encodeName 64 h.name ++ encodeI32 h.flags ++
  encodeI32 h.num_frames ++ encodeI32 h.num_shaders ++ encodeI32 h.num_verts ++
  encodeI32 h.num_triangles ++ encodeI32 h.ofs_triangles ++
  encodeI32 h.ofs_shaders ++ encodeI32 h.ofs_st ++ encodeI32 h.ofs_xyznormal ++
  encodeI32 h.ofs_end

def encodeShader (s : Shader) : List Nat :=
  encodeName 64 s.name ++ encodeI32 s.shader_index

def encodeTriangle (t : Triangle) : List Nat :=
  encodeI32 t.indexes.1 ++ encodeI32 t.indexes.2.1 ++ encodeI32 t.indexes.2.2

def encodeTexCoord (t : TexCoord) : List Nat :=
  encodeF32 t.st.1 ++ encodeF32 t.st.2

def encodeVertex (v : Vertex) : List Nat :=
  encodeI16 v.x ++ encodeI16 v.y ++ encodeI16 v.z ++ encodeI16 v.normal

/-- A surface laid out tightly: header, shaders, triangles, texture
coordinates, then the per-frame vertex blocks. -/
def encodeSurface (s : Surface) : List Nat :=
  encodeSurfaceHeader s.header ++ encMany encodeShader s.shaders ++
  encMany encodeTriangle s.triangles ++ encMany encodeTexCoord s.tex_coords ++
  encMany (encMany encodeVertex) s.vertices

/-- A model laid out tightly: header, frames, tags, then surfaces. -/
def encodeMd3 (m : Md3) : List Nat :=
  encodeHeader m.header ++ encMany encodeFrame m.frames ++
  encMany encodeTag m.tags ++ encMany encodeSurface m.surfaces

/-! ## Well-formedness of model values with respect to the §6 layout -/

@[reducible] def WfI32 (v : Int) : Prop := -2147483648 ≤ v ∧ v < 2147483648

@[reducible] def WfI16 (v : Int) : Prop := -32768 ≤ v ∧ v < 32768

@[reducible] def WfF32 (u : Nat) : Prop := u < 4294967296

/-- A name that survives the fixed-width NUL-padded encoding: it fits in the
field, contains no NUL of its own, and is valid UTF-8. -/
@[reducible] def WfName (w : Nat) (name : List Nat) : Prop :=
  name.length ≤ w ∧ (∀ b ∈ name, b ≠ 0) ∧ validUtf8 name = true

@[reducible] def WfVec3 (v : Vec3) : Prop := WfF32 v.x ∧ WfF32 v.y ∧ WfF32 v.z

@[reducible] def WfFrame (f : Frame) : Prop :=
  WfVec3 f.min_bounds ∧ WfVec3 f.max_bounds ∧ WfVec3 f.local_origin ∧
  WfF32 f.radius ∧ WfName 16 f.name

@[reducible] def WfTag (t : Tag) : Prop :=
  WfName 64 t.name ∧ WfVec3 t.origin ∧ WfVec3 t.axis.1 ∧ WfVec3 t.axis.2.1 ∧
  WfVec3 t.axis.2.2

@[reducible] def WfShader (s : Shader) : Prop := WfName 64 s.name ∧ WfI32 s.shader_index

@[reducible] def WfTriangle (t : Triangle) : Prop :=
  WfI32 t.indexes.1 ∧ WfI32 t.indexes.2.1 ∧ WfI32 t.indexes.2.2

@[reducible] def WfTexCoord (t : TexCoord) : Prop := WfF32 t.st.1 ∧ WfF32 t.st.2

@[reducible] def WfVertex (v : Vertex) : Prop :=
  WfI16 v.x ∧ WfI16 v.y ∧ WfI16 v.z ∧ WfI16 v.normal

/-- A surface whose header counts match its collections and whose offsets
describe the tight §6 layout relative to the surface start. -/
@[reducible] def WfSurface (s : Surface) : Prop :=
  WfI32 s.header.ident ∧ WfName 64 s.header.name ∧ WfI32 s.header.flags ∧
  WfI32 s.header.ofs_end ∧
  s.header.num_frames = (s.vertices.length : Int) ∧
  s.header.num_shaders = (s.shaders.length : Int) ∧
  s.header.num_verts = (s.tex_coords.length : Int) ∧
  s.header.num_triangles = (s.triangles.length : Int) ∧
  WfI32 s.header.num_frames ∧ WfI32 s.header.num_shaders ∧
  WfI32 s.header.num_verts ∧ WfI32 s.header.num_triangles ∧
  s.header.ofs_shaders = 108 ∧
  s.header.ofs_triangles = 108 + 68 * (s.shaders.length : Int) ∧
  s.header.ofs_st = 108 + 68 * (s.shaders.length : Int) +
    12 * (s.triangles.length : Int) ∧
  s.header.ofs_xyznormal = 108 + 68 * (s.shaders.length : Int) +
    12 * (s.triangles.length : Int) + 8 * (s.tex_coords.length : Int) ∧
  WfI32 s.header.ofs_shaders ∧ WfI32 s.header.ofs_triangles ∧
  WfI32 s.header.ofs_st ∧ WfI32 s.header.ofs_xyznormal ∧
  (∀ row ∈ s.vertices, row.length = s.tex_coords.length) ∧
  (∀ sh ∈ s.shaders, WfShader sh) ∧ (∀ t ∈ s.triangles, WfTriangle t) ∧
  (∀ tc ∈ s.tex_coords, WfTexCoord tc) ∧
  (∀ row ∈ s.vertices, ∀ v ∈ row, WfVertex v)

/-- A model whose header counts match its collections, whose offsets describe
the tight §6 layout, whose magic is in place, and whose total size leaves the
64-bit cursor arithmetic exact. -/
@[reducible] def WfMd3 (m : Md3) : Prop :=
  m.header.ident = MD3_MAGIC ∧ WfI32 m.header.version ∧
  WfName 64 m.header.name ∧ WfI32 m.header.flags ∧ WfI32 m.header.num_skins ∧
  WfI32 m.header.ofs_eof ∧
  m.header.num_frames = (m.frames.length : Int) ∧
  m.header.num_tags = (m.tags.length : Int) ∧
  m.header.num_surfaces = (m.surfaces.length : Int) ∧
  WfI32 m.header.num_frames ∧ WfI32 m.header.num_tags ∧
  WfI32 m.header.num_surfaces ∧
  m.header.ofs_frames = 108 ∧
  m.header.ofs_tags = 108 + 56 * (m.frames.length : Int) ∧
  m.header.ofs_surfaces = 108 + 56 * (m.frames.length : Int) +
    112 * (m.tags.length : Int) ∧
  WfI32 m.header.ofs_frames ∧ WfI32 m.header.ofs_tags ∧
  WfI32 m.header.ofs_surfaces ∧
  (∀ f ∈ m.frames, WfFrame f) ∧ (∀ t ∈ m.tags, WfTag t) ∧
  (∀ s ∈ m.surfaces, WfSurface s) ∧
  (encodeMd3 m).length < 9223372036854775808

/-! ## Running and composing reader actions -/

theorem pure_run {α : Type} (a : α) (buf : List Nat) (p : Nat) :
    M.pure a buf p = .ok (a, p) := rfl

theorem fail_run {α : Type} (e : DecErr) (buf : List Nat) (p : Nat) :
    (M.fail e : M α) buf p = .error e := rfl

theorem getPos_run (buf : List Nat) (p : Nat) : getPos buf p = .ok (p, p) := rfl

theorem setPos_run (q : Nat) (buf : List Nat) (p : Nat) :
    setPos q buf p = .ok ((), q) := rfl

/-- Forward composition: if the first action yields `a` at `q`, the bind
continues there. -/
theorem bind_step {α β : Type} {x : M α} {f : α → M β} {buf : List Nat}
    {p q : Nat} {a : α} {out : Except DecErr (β × Nat)}
    (h1 : x buf p = .ok (a, q)) (h2 : f a buf q = out) :
    M.bind x f buf p = out := by
  unfold M.bind
  rw [h1]
  exact h2

/-- Inversion: a successful bind factors through a successful first action. -/
theorem bind_ok {α β : Type} {x : M α} {f : α → M β} {buf : List Nat}
    {p : Nat} {c : β} {r : Nat}
    (h : M.bind x f buf p = .ok (c, r)) :
    ∃ a q, x buf p = .ok (a, q) ∧ f a buf q = .ok (c, r) := by
  unfold M.bind at h
  cases hx : x buf p with
  | ok aq =>
    rw [hx] at h
    exact ⟨aq.1, aq.2, rfl, h⟩
  | error e => rw [hx] at h; cases h

/-- An error from the first action propagates through a bind. -/
theorem bind_err {α β : Type} (x : M α) (f : α → M β) (buf : List Nat)
    (p : Nat) (e : DecErr) (h : x buf p = .error e) :
    M.bind x f buf p = .error e := by
  unfold M.bind
  rw [h]

/-! ## Byte-level positioning lemmas -/

theorem drop_shift {buf e rest : List Nat} {p n : Nat}
    (h : buf.drop p = e ++ rest) (hl : e.length = n) :
    buf.drop (p + n) = rest := by
  have h2 : (buf.drop p).drop n = buf.drop (p + n) := by
    rw [List.drop_drop, Nat.add_comm]
  rw [← h2, h, ← hl]
  simp

theorem drop_cons_shift {buf rest : List Nat} {p b : Nat}
    (h : buf.drop p = b :: rest) : buf.drop (p + 1) = rest :=
  drop_shift (e := [b]) (by simpa using h) rfl

@[simp] theorem encodeU32_length (u : Nat) : (encodeU32 u).length = 4 := rfl

@[simp] theorem encodeI32_length (v : Int) : (encodeI32 v).length = 4 := rfl

@[simp] theorem encodeI16_length (v : Int) : (encodeI16 v).length = 2 := rfl

@[simp] theorem encodeF32_length (u : Nat) : (encodeF32 u).length = 4 := rfl

@[simp] theorem encodeVec3_length (v : Vec3) : (encodeVec3 v).length = 12 := rfl

theorem encodeName_length {w : Nat} {name : List Nat} (h : name.length ≤ w) :
    (encodeName w name).length = w := by
  unfold encodeName
  simp
  omega

/-! ## Primitive reads over encoded bytes -/

theorem read_u8_enc {buf rest : List Nat} {p b : Nat}
    (h : buf.drop p = b :: rest) : read_u8 buf p = .ok (b, p + 1) := by
  unfold read_u8
  rw [h]

theorem read_f32_enc {buf rest : List Nat} {p u : Nat}
    (h : buf.drop p = encodeF32 u ++ rest) (hu : WfF32 u) :
    read_f32 buf p = .ok (u, p + 4) := by
  unfold encodeF32 encodeU32 at h
  simp only [List.cons_append, List.nil_append] at h
  unfold read_f32
  rw [h]
  have hsum : u % 256 + 256 * (u / 256 % 256) + 65536 * (u / 65536 % 256) +
      16777216 * (u / 16777216 % 256) = u := by
    unfold WfF32 at hu
    omega
  show Except.ok (u % 256 + 256 * (u / 256 % 256) + 65536 * (u / 65536 % 256) +
      16777216 * (u / 16777216 % 256), p + 4) = _
  rw [hsum]

theorem read_s32_enc {buf rest : List Nat} {p : Nat} {v : Int}
    (h : buf.drop p = encodeI32 v ++ rest) (hv : WfI32 v) :
    read_s32 buf p = .ok (v, p + 4) := by
  unfold encodeI32 encodeU32 at h
  simp only [List.cons_append, List.nil_append] at h
  unfold read_s32
  rw [h]
  obtain ⟨hv1, hv2⟩ := hv
  have hm : (0 : Int) ≤ v % 4294967296 := Int.emod_nonneg v (by norm_num)
  have hml : v % 4294967296 < 4294967296 := Int.emod_lt_of_pos v (by norm_num)
  set u : Nat := (v % 4294967296).toNat with hu
  have hcast : (u : Int) = v % 4294967296 := Int.toNat_of_nonneg hm
  have hult : u < 4294967296 := by omega
  have hsum : u % 256 + 256 * (u / 256 % 256) + 65536 * (u / 65536 % 256) +
      16777216 * (u / 16777216 % 256) = u := by omega
  show Except.ok (toSigned32 (u % 256 + 256 * (u / 256 % 256) +
      65536 * (u / 65536 % 256) + 16777216 * (u / 16777216 % 256)), p + 4) = _
  rw [hsum]
  have hts : toSigned32 u = v := by
    unfold toSigned32
    have hmod : u % 4294967296 = u := Nat.mod_eq_of_lt hult
    rw [hmod]
    split <;> omega
  rw [hts]

theorem read_s16_enc {buf rest : List Nat} {p : Nat} {v : Int}
    (h : buf.drop p = encodeI16 v ++ rest) (hv : WfI16 v) :
    read_s16 buf p = .ok (v, p + 2) := by
  unfold encodeI16 at h
  simp only [List.cons_append, List.nil_append] at h
  unfold read_s16
  rw [h]
  obtain ⟨hv1, hv2⟩ := hv
  have hm : (0 : Int) ≤ v % 65536 := Int.emod_nonneg v (by norm_num)
  have hml : v % 65536 < 65536 := Int.emod_lt_of_pos v (by norm_num)
  set u : Nat := (v % 65536).toNat with hu
  have hcast : (u : Int) = v % 65536 := Int.toNat_of_nonneg hm
  have hult : u < 65536 := by omega
  have hsum : u % 256 + 256 * (u / 256 % 256) = u := by omega
  show Except.ok (toSigned16 (u % 256 + 256 * (u / 256 % 256)), p + 2) = _
  rw [hsum]
  have hts : toSigned16 u = v := by
    unfold toSigned16
    have hmod : u % 65536 = u := Nat.mod_eq_of_lt hult
    rw [hmod]
    split <;> omega
  rw [hts]

theorem read_bytes_enc (bs : List Nat) :
    ∀ (buf rest : List Nat) (p : Nat), buf.drop p = bs ++ rest →
      read_bytes bs.length buf p = .ok (bs, p + bs.length) := by
  induction bs with
  | nil =>
    intro buf rest p _
    simp [read_bytes, M.pure]
  | cons b tl ih =>
    intro buf rest p h
    have hb : buf.drop p = b :: (tl ++ rest) := by simpa using h
    show read_bytes (tl.length + 1) buf p = _
    unfold read_bytes
    simp only [bind_eq, pure_eq]
    refine bind_step (read_u8_enc hb) ?_
    refine bind_step (ih buf rest (p + 1) (drop_cons_shift hb)) ?_
    rw [pure_run]
    have : p + 1 + tl.length = p + (b :: tl).length := by simp; omega
    rw [this]

theorem takeWhile_padded_name {name : List Nat} (k : Nat)
    (h : ∀ b ∈ name, b ≠ 0) :
    (name ++ List.replicate k 0).takeWhile (fun b => b != 0) = name := by
  induction name with
  | nil =>
    simp only [List.nil_append]
    cases k with
    | zero => simp
    | succ k => simp [List.replicate_succ, List.takeWhile]
  | cons b tl ih =>
    have hb : b ≠ 0 := h b (List.mem_cons_self b tl)
    simp only [List.cons_append, List.takeWhile_cons]
    simp only [bne_iff_ne, ne_eq, hb, not_false_eq_true, if_true]
    rw [ih (fun x hx => h x (List.mem_cons_of_mem b hx))]

theorem read_string_enc {buf rest name : List Nat} {p w : Nat}
    (h : buf.drop p = encodeName w name ++ rest) (hw : WfName w name) :
    read_string w buf p = .ok (name, p + w) := by
  obtain ⟨hlen, hnz, hval⟩ := hw
  have hlen2 : (encodeName w name).length = w := encodeName_length hlen
  have hb := read_bytes_enc (encodeName w name) buf rest p h
  rw [hlen2] at hb
  unfold read_string
  simp only [bind_eq, pure_eq]
  refine bind_step hb ?_
  have hs : (encodeName w name).takeWhile (fun b => b != 0) = name :=
    takeWhile_padded_name _ hnz
  simp only [hs, hval, if_true]
  rw [pure_run]

/-! ## Record decoders over encoded bytes -/

theorem read_vec3_enc {buf rest : List Nat} {p : Nat} {v : Vec3}
    (h : buf.drop p = encodeVec3 v ++ rest) (hv : WfVec3 v) :
    read_vec3 buf p = .ok (v, p + 12) := by
  obtain ⟨w1, w2, w3⟩ := hv
  have h1 : buf.drop p =
      encodeF32 v.x ++ (encodeF32 v.y ++ (encodeF32 v.z ++ rest)) := by
    simpa [encodeVec3, List.append_assoc] using h
  have h2 := drop_shift h1 (encodeF32_length _)
  have h3 := drop_shift h2 (encodeF32_length _)
  unfold read_vec3
  simp only [bind_eq, pure_eq]
  refine bind_step (read_f32_enc h1 w1) ?_
  refine bind_step (read_f32_enc h2 w2) ?_
  refine bind_step (read_f32_enc h3 w3) ?_
  rw [pure_run, show p + 4 + 4 + 4 = p + 12 from by omega]

/-- Per-field well-formedness of a top-level header value. -/
@[reducible] def WfHeaderFields (h : Md3Header) : Prop :=
  WfI32 h.ident ∧ WfI32 h.version ∧ WfName 64 h.name ∧ WfI32 h.flags ∧
  WfI32 h.num_frames ∧ WfI32 h.num_tags ∧ WfI32 h.num_surfaces ∧
  WfI32 h.num_skins ∧ WfI32 h.ofs_frames ∧ WfI32 h.ofs_tags ∧
  WfI32 h.ofs_surfaces ∧ WfI32 h.ofs_eof

theorem read_md3_header_enc {buf rest : List Nat} {p : Nat} {h : Md3Header}
    (hb : buf.drop p = encodeHeader h ++ rest) (hw : WfHeaderFields h) :
    read_md3_header buf p = .ok (h, p + 108) := by
  obtain ⟨w1, w2, w3, w4, w5, w6, w7, w8, w9, w10, w11, w12⟩ := hw
  have h1 : buf.drop p = encodeI32 h.ident ++ (encodeI32 h.version ++
      (encodeName 64 h.name ++ (encodeI32 h.flags ++ (encodeI32 h.num_frames ++
      (encodeI32 h.num_tags ++ (encodeI32 h.num_surfaces ++
      (encodeI32 h.num_skins ++ (encodeI32 h.ofs_frames ++
      (encodeI32 h.ofs_tags ++ (encodeI32 h.ofs_surfaces ++
      (encodeI32 h.ofs_eof ++ rest))))))))))) := by
    simpa [encodeHeader, List.append_assoc] using hb
  have h2 := drop_shift h1 (encodeI32_length _)
  have h3 := drop_shift h2 (encodeI32_length _)
  have h4 := drop_shift h3 (encodeName_length w3.1)
  have h5 := drop_shift h4 (encodeI32_length _)
  have h6 := drop_shift h5 (encodeI32_length _)
  have h7 := drop_shift h6 (encodeI32_length _)
  have h8 := drop_shift h7 (encodeI32_length _)
  have h9 := drop_shift h8 (encodeI32_length _)
  have h10 := drop_shift h9 (encodeI32_length _)
  have h11 := drop_shift h10 (encodeI32_length _)
  have h12 := drop_shift h11 (encodeI32_length _)
  unfold read_md3_header
  simp only [bind_eq, pure_eq, MAX_QPATH]
  refine bind_step (read_s32_enc h1 w1) ?_
  refine bind_step (read_s32_enc h2 w2) ?_
  refine bind_step (read_string_enc h3 w3) ?_
  refine bind_step (read_s32_enc h4 w4) ?_
  refine bind_step (read_s32_enc h5 w5) ?_
  refine bind_step (read_s32_enc h6 w6) ?_
  refine bind_step (read_s32_enc h7 w7) ?_
  refine bind_step (read_s32_enc h8 w8) ?_
  refine bind_step (read_s32_enc h9 w9) ?_
  refine bind_step (read_s32_enc h10 w10) ?_
  refine bind_step (read_s32_enc h11 w11) ?_
  refine bind_step (read_s32_enc h12 w12) ?_
  rw [pure_run,
    show p + 4 + 4 + 64 + 4 + 4 + 4 + 4 + 4 + 4 + 4 + 4 + 4 = p + 108 from by
      omega]

theorem read_frame_enc {buf rest : List Nat} {p : Nat} {f : Frame}
    (hb : buf.drop p = encodeFrame f ++ rest) (hw : WfFrame f) :
    read_frame buf p = .ok (f, p + 56) := by
  obtain ⟨w1, w2, w3, w4, w5⟩ := hw
  have h1 : buf.drop p = encodeVec3 f.min_bounds ++ (encodeVec3 f.max_bounds ++
      (encodeVec3 f.local_origin ++ (encodeF32 f.radius ++
      (encodeName 16 f.name ++ rest)))) := by
    simpa [encodeFrame, List.append_assoc] using hb
  have h2 := drop_shift h1 (encodeVec3_length _)
  have h3 := drop_shift h2 (encodeVec3_length _)
  have h4 := drop_shift h3 (encodeVec3_length _)
  have h5 := drop_shift h4 (encodeF32_length _)
  unfold read_frame
  simp only [bind_eq, pure_eq]
  refine bind_step (read_vec3_enc h1 w1) ?_
  refine bind_step (read_vec3_enc h2 w2) ?_
  refine bind_step (read_vec3_enc h3 w3) ?_
  refine bind_step (read_f32_enc h4 w4) ?_
  refine bind_step (read_string_enc h5 w5) ?_
  rw [pure_run, show p + 12 + 12 + 12 + 4 + 16 = p + 56 from by omega]

theorem read_tag_enc {buf rest : List Nat} {p : Nat} {t : Tag}
    (hb : buf.drop p = encodeTag t ++ rest) (hw : WfTag t) :
    read_tag buf p = .ok (t, p + 112) := by
  obtain ⟨w1, w2, w3, w4, w5⟩ := hw
  have h1 : buf.drop p = encodeName 64 t.name ++ (encodeVec3 t.origin ++
      (encodeVec3 t.axis.1 ++ (encodeVec3 t.axis.2.1 ++
      (encodeVec3 t.axis.2.2 ++ rest)))) := by
    simpa [encodeTag, List.append_assoc] using hb
  have h2 := drop_shift h1 (encodeName_length w1.1)
  have h3 := drop_shift h2 (encodeVec3_length _)
  have h4 := drop_shift h3 (encodeVec3_length _)
  have h5 := drop_shift h4 (encodeVec3_length _)
  unfold read_tag
  simp only [bind_eq, pure_eq, MAX_QPATH]
  refine bind_step (read_string_enc h1 w1) ?_
  refine bind_step (read_vec3_enc h2 w2) ?_
  refine bind_step (read_vec3_enc h3 w3) ?_
  refine bind_step (read_vec3_enc h4 w4) ?_
  refine bind_step (read_vec3_enc h5 w5) ?_
  rw [pure_run, show p + 64 + 12 + 12 + 12 + 12 = p + 112 from by omega]

/-- Per-field well-formedness of a surface header value. -/
@[reducible] def WfSurfaceHeaderFields (h : SurfaceHeader) : Prop :=
  WfI32 h.ident ∧ WfName 64 h.name ∧ WfI32 h.flags ∧ WfI32 h.num_frames ∧
  WfI32 h.num_shaders ∧ WfI32 h.num_verts ∧ WfI32 h.num_triangles ∧
  WfI32 h.ofs_triangles ∧ WfI32 h.ofs_shaders ∧ WfI32 h.ofs_st ∧
  WfI32 h.ofs_xyznormal ∧ WfI32 h.ofs_end

theorem read_surface_header_enc {buf rest : List Nat} {p : Nat}
    {h : SurfaceHeader} (hb : buf.drop p = encodeSurfaceHeader h ++ rest)
    (hw : WfSurfaceHeaderFields h) :
    read_surface_header buf p = .ok (h, p + 108) := by
  obtain ⟨w1, w2, w3, w4, w5, w6, w7, w8, w9, w10, w11, w12⟩ := hw
  have h1 : buf.drop p = encodeI32 h.ident ++ (encodeName 64 h.name ++
      (encodeI32 h.flags ++ (encodeI32 h.num_frames ++
      (encodeI32 h.num_shaders ++ (encodeI32 h.num_verts ++
      (encodeI32 h.num_triangles ++ (encodeI32 h.ofs_triangles ++
      (encodeI32 h.ofs_shaders ++ (encodeI32 h.ofs_st ++
      (encodeI32 h.ofs_xyznormal ++ (encodeI32 h.ofs_end ++
      rest))))))))))) := by
    simpa [encodeSurfaceHeader, List.append_assoc] using hb
  have h2 := drop_shift h1 (encodeI32_length _)
  have h3 := drop_shift h2 (encodeName_length w2.1)
  have h4 := drop_shift h3 (encodeI32_length _)
  have h5 := drop_shift h4 (encodeI32_length _)
  have h6 := drop_shift h5 (encodeI32_length _)
  have h7 := drop_shift h6 (encodeI32_length _)
  have h8 := drop_shift h7 (encodeI32_length _)
  have h9 := drop_shift h8 (encodeI32_length _)
  have h10 := drop_shift h9 (encodeI32_length _)
  have h11 := drop_shift h10 (encodeI32_length _)
  have h12 := drop_shift h11 (encodeI32_length _)
  unfold read_surface_header
  simp only [bind_eq, pure_eq, MAX_QPATH]
  refine bind_step (read_s32_enc h1 w1) ?_
  refine bind_step (read_string_enc h2 w2) ?_
  refine bind_step (read_s32_enc h3 w3) ?_
  refine bind_step (read_s32_enc h4 w4) ?_
  refine bind_step (read_s32_enc h5 w5) ?_
  refine bind_step (read_s32_enc h6 w6) ?_
  refine bind_step (read_s32_enc h7 w7) ?_
  refine bind_step (read_s32_enc h8 w8) ?_
  refine bind_step (read_s32_enc h9 w9) ?_
  refine bind_step (read_s32_enc h10 w10) ?_
  refine bind_step (read_s32_enc h11 w11) ?_
  refine bind_step (read_s32_enc h12 w12) ?_
  rw [pure_run,
    show p + 4 + 64 + 4 + 4 + 4 + 4 + 4 + 4 + 4 + 4 + 4 + 4 = p + 108 from by
      omega]

theorem read_shader_enc {buf rest : List Nat} {p : Nat} {s : Shader}
    (hb : buf.drop p = encodeShader s ++ rest) (hw : WfShader s) :
    read_shader buf p = .ok (s, p + 68) := by
  obtain ⟨w1, w2⟩ := hw
  have h1 : buf.drop p = encodeName 64 s.name ++ (encodeI32 s.shader_index ++
      rest) := by
    simpa [encodeShader, List.append_assoc] using hb
  have h2 := drop_shift h1 (encodeName_length w1.1)
  unfold read_shader
  simp only [bind_eq, pure_eq, MAX_QPATH]
  refine bind_step (read_string_enc h1 w1) ?_
  refine bind_step (read_s32_enc h2 w2) ?_
  rw [pure_run, show p + 64 + 4 = p + 68 from by omega]

theorem read_triangle_enc {buf rest : List Nat} {p : Nat} {t : Triangle}
    (hb : buf.drop p = encodeTriangle t ++ rest) (hw : WfTriangle t) :
    read_triangle buf p = .ok (t, p + 12) := by
  obtain ⟨w1, w2, w3⟩ := hw
  have h1 : buf.drop p = encodeI32 t.indexes.1 ++ (encodeI32 t.indexes.2.1 ++
      (encodeI32 t.indexes.2.2 ++ rest)) := by
    simpa [encodeTriangle, List.append_assoc] using hb
  have h2 := drop_shift h1 (encodeI32_length _)
  have h3 := drop_shift h2 (encodeI32_length _)
  unfold read_triangle
  simp only [bind_eq, pure_eq]
  refine bind_step (read_s32_enc h1 w1) ?_
  refine bind_step (read_s32_enc h2 w2) ?_
  refine bind_step (read_s32_enc h3 w3) ?_
  rw [pure_run, show p + 4 + 4 + 4 = p + 12 from by omega]

theorem read_tex_coord_enc {buf rest : List Nat} {p : Nat} {t : TexCoord}
    (hb : buf.drop p = encodeTexCoord t ++ rest) (hw : WfTexCoord t) :
    read_tex_coord buf p = .ok (t, p + 8) := by
  obtain ⟨w1, w2⟩ := hw
  have h1 : buf.drop p = encodeF32 t.st.1 ++ (encodeF32 t.st.2 ++ rest) := by
    simpa [encodeTexCoord, List.append_assoc] using hb
  have h2 := drop_shift h1 (encodeF32_length _)
  unfold read_tex_coord
  simp only [bind_eq, pure_eq]
  refine bind_step (read_f32_enc h1 w1) ?_
  refine bind_step (read_f32_enc h2 w2) ?_
  rw [pure_run, show p + 4 + 4 = p + 8 from by omega]

theorem read_vertex_enc {buf rest : List Nat} {p : Nat} {v : Vertex}
    (hb : buf.drop p = encodeVertex v ++ rest) (hw : WfVertex v) :
    read_vertex buf p = .ok (v, p + 8) := by
  obtain ⟨w1, w2, w3, w4⟩ := hw
  have h1 : buf.drop p = encodeI16 v.x ++ (encodeI16 v.y ++ (encodeI16 v.z ++
      (encodeI16 v.normal ++ rest))) := by
    simpa [encodeVertex, List.append_assoc] using hb
  have h2 := drop_shift h1 (encodeI16_length _)
  have h3 := drop_shift h2 (encodeI16_length _)
  have h4 := drop_shift h3 (encodeI16_length _)
  unfold read_vertex
  simp only [bind_eq, pure_eq]
  refine bind_step (read_s16_enc h1 w1) ?_
  refine bind_step (read_s16_enc h2 w2) ?_
  refine bind_step (read_s16_enc h3 w3) ?_
  refine bind_step (read_s16_enc h4 w4) ?_
  rw [pure_run, show p + 2 + 2 + 2 + 2 = p + 8 from by omega]

/-! ## Iterated decoding over encoded concatenations -/

theorem encMany_length_const {α : Type} {enc : α → List Nat} {n : Nat} :
    ∀ l : List α, (∀ x ∈ l, (enc x).length = n) →
      (encMany enc l).length = n * l.length := by
  intro l
  induction l with
  | nil => intro _; simp [encMany]
  | cons x xs ih =>
    intro h
    have hx := h x (List.mem_cons_self x xs)
    have htl := ih fun y hy => h y (List.mem_cons_of_mem x hy)
    simp only [encMany, List.length_append, List.length_cons, hx, htl]
    ring

theorem read_many_enc {α : Type} {rd : M α} {enc : α → List Nat} {P : α → Prop}
    {bound : Nat}
    (hrd : ∀ buf p rest x, P x → List.drop p buf = enc x ++ rest →
      p + (enc x).length ≤ bound → rd buf p = .ok (x, p + (enc x).length)) :
    ∀ (l : List α) (buf rest : List Nat) (p : Nat), (∀ x ∈ l, P x) →
      buf.drop p = encMany enc l ++ rest →
      p + (encMany enc l).length ≤ bound →
      read_many rd l.length buf p = .ok (l, p + (encMany enc l).length) := by
  intro l
  induction l with
  | nil =>
    intro buf rest p _ _ _
    simp [read_many, M.pure, encMany]
  | cons x xs ih =>
    intro buf rest p hP h hb
    have hx : buf.drop p = enc x ++ (encMany enc xs ++ rest) := by
      simpa [encMany, List.append_assoc] using h
    have hlen : (encMany enc (x :: xs)).length =
        (enc x).length + (encMany enc xs).length := by
      simp [encMany]
    have hb1 : p + (enc x).length ≤ bound := by omega
    have hstep := hrd buf p _ x (hP x (List.mem_cons_self x xs)) hx hb1
    have hx2 : buf.drop (p + (enc x).length) = encMany enc xs ++ rest :=
      drop_shift hx rfl
    have hb2 : p + (enc x).length + (encMany enc xs).length ≤ bound := by omega
    show read_many rd (xs.length + 1) buf p = _
    unfold read_many
    simp only [bind_eq, pure_eq]
    refine bind_step hstep ?_
    refine bind_step
      (ih buf rest (p + (enc x).length)
        (fun y hy => hP y (List.mem_cons_of_mem x hy)) hx2 hb2) ?_
    rw [pure_run, show p + (enc x).length + (encMany enc xs).length =
      p + (encMany enc (x :: xs)).length from by omega]

/-! ## Cast and length helpers -/

theorem i32ToU64_eq_nat {v : Int} {n : Nat} (he : v = (n : Int))
    (hlt : n < 18446744073709551616) : i32ToU64 v = n := by
  subst he
  unfold i32ToU64
  omega

theorem addOfs_eq_nat {base : Nat} {v : Int} {n : Nat} (he : v = (n : Int))
    (h : base + n < 18446744073709551616) : addOfs base v = base + n := by
  subst he
  unfold addOfs i32ToU64
  omega

theorem encodeHeader_length {h : Md3Header} (hn : h.name.length ≤ 64) :
    (encodeHeader h).length = 108 := by
  simp [encodeHeader, List.length_append, encodeName_length hn]

theorem encodeFrame_length {f : Frame} (hn : f.name.length ≤ 16) :
    (encodeFrame f).length = 56 := by
  simp [encodeFrame, List.length_append, encodeName_length hn]

theorem encodeTag_length {t : Tag} (hn : t.name.length ≤ 64) :
    (encodeTag t).length = 112 := by
  simp [encodeTag, List.length_append, encodeName_length hn]

theorem encodeSurfaceHeader_length {h : SurfaceHeader}
    (hn : h.name.length ≤ 64) : (encodeSurfaceHeader h).length = 108 := by
  simp [encodeSurfaceHeader, List.length_append, encodeName_length hn]

theorem encodeShader_length {s : Shader} (hn : s.name.length ≤ 64) :
    (encodeShader s).length = 68 := by
  simp [encodeShader, List.length_append, encodeName_length hn]

@[simp] theorem encodeTriangle_length (t : Triangle) :
    (encodeTriangle t).length = 12 := rfl

@[simp] theorem encodeTexCoord_length (t : TexCoord) :
    (encodeTexCoord t).length = 8 := rfl

@[simp] theorem encodeVertex_length (v : Vertex) :
    (encodeVertex v).length = 8 := rfl

/-! ## Decoding one encoded surface -/

theorem read_surface_enc {buf rest : List Nat} {p : Nat} {s : Surface}
    (hb : buf.drop p = encodeSurface s ++ rest) (hw : WfSurface s)
    (hp : p + (encodeSurface s).length < 18446744073709551616) :
    read_surface buf p = .ok (s, p + (encodeSurface s).length) := by
  obtain ⟨w1, w2, w3, w4, w5, w6, w7, w8, w9, w10, w11, w12, w13, w14, w15,
    w16, w17, w18, w19, w20, w21, w22, w23, w24, w25⟩ := hw
  have lSH : (encodeSurfaceHeader s.header).length = 108 :=
    encodeSurfaceHeader_length w2.1
  have lShaders : (encMany encodeShader s.shaders).length =
      68 * s.shaders.length :=
    encMany_length_const _ fun x hx => encodeShader_length (w22 x hx).1.1
  have lTris : (encMany encodeTriangle s.triangles).length =
      12 * s.triangles.length :=
    encMany_length_const _ fun x _ => encodeTriangle_length x
  have lTexs : (encMany encodeTexCoord s.tex_coords).length =
      8 * s.tex_coords.length :=
    encMany_length_const _ fun x _ => encodeTexCoord_length x
  have lRow : ∀ row ∈ s.vertices, (encMany encodeVertex row).length =
      8 * s.tex_coords.length := by
    intro row hr
    rw [encMany_length_const row fun v _ => encodeVertex_length v, w21 row hr]
  have lVerts : (encMany (encMany encodeVertex) s.vertices).length =
      8 * s.tex_coords.length * s.vertices.length :=
    encMany_length_const _ lRow
  have lS : (encodeSurface s).length = 108 + 68 * s.shaders.length +
      12 * s.triangles.length + 8 * s.tex_coords.length +
      8 * s.tex_coords.length * s.vertices.length := by
    simp only [encodeSurface, List.length_append, lSH, lShaders, lTris, lTexs,
      lVerts]
  have hb1 : buf.drop p = encodeSurfaceHeader s.header ++
      (encMany encodeShader s.shaders ++ (encMany encodeTriangle s.triangles ++
      (encMany encodeTexCoord s.tex_coords ++
      (encMany (encMany encodeVertex) s.vertices ++ rest)))) := by
    simpa [encodeSurface, List.append_assoc] using hb
  have hb2 := drop_shift hb1 lSH
  have hb3 := drop_shift hb2 lShaders
  have hb4 := drop_shift hb3 lTris
  have hb5 := drop_shift hb4 lTexs
  have nsb : s.shaders.length < 2147483648 := by
    have h2 := w10.2
    rw [w6] at h2
    omega
  have ntb : s.triangles.length < 2147483648 := by
    have h2 := w12.2
    rw [w8] at h2
    omega
  have nvb : s.tex_coords.length < 2147483648 := by
    have h2 := w11.2
    rw [w7] at h2
    omega
  have nfb : s.vertices.length < 2147483648 := by
    have h2 := w9.2
    rw [w5] at h2
    omega
  have e1 : addOfs p s.header.ofs_shaders = p + 108 :=
    addOfs_eq_nat (by rw [w13]; norm_cast) (by omega)
  have e2p : addOfs p s.header.ofs_triangles =
      p + (108 + 68 * s.shaders.length) :=
    addOfs_eq_nat (by rw [w14]; push_cast; ring) (by omega)
  have e2 : addOfs p s.header.ofs_triangles =
      p + 108 + 68 * s.shaders.length := by
    rw [e2p]
    omega
  have e3p : addOfs p s.header.ofs_st =
      p + (108 + 68 * s.shaders.length + 12 * s.triangles.length) :=
    addOfs_eq_nat (by rw [w15]; push_cast; ring) (by omega)
  have e3 : addOfs p s.header.ofs_st =
      p + 108 + 68 * s.shaders.length + 12 * s.triangles.length := by
    rw [e3p]
    omega
  have e4p : addOfs p s.header.ofs_xyznormal =
      p + (108 + 68 * s.shaders.length + 12 * s.triangles.length +
        8 * s.tex_coords.length) :=
    addOfs_eq_nat (by rw [w16]; push_cast; ring) (by omega)
  have e4 : addOfs p s.header.ofs_xyznormal =
      p + 108 + 68 * s.shaders.length + 12 * s.triangles.length +
        8 * s.tex_coords.length := by
    rw [e4p]
    omega
  have c1 : i32ToU64 s.header.num_shaders = s.shaders.length :=
    i32ToU64_eq_nat w6 (by omega)
  have c2 : i32ToU64 s.header.num_triangles = s.triangles.length :=
    i32ToU64_eq_nat w8 (by omega)
  have c3 : i32ToU64 s.header.num_verts = s.tex_coords.length :=
    i32ToU64_eq_nat w7 (by omega)
  have c4 : i32ToU64 s.header.num_frames = s.vertices.length :=
    i32ToU64_eq_nat w5 (by omega)
  have hrdShader : ∀ (b : List Nat) (q : Nat) (r : List Nat) (x : Shader),
      WfShader x → List.drop q b = encodeShader x ++ r →
      q + (encodeShader x).length ≤ 18446744073709551615 →
      read_shader b q = .ok (x, q + (encodeShader x).length) := by
    intro b q r x hx hdr _
    rw [encodeShader_length hx.1.1]
    exact read_shader_enc hdr hx
  have hrdTri : ∀ (b : List Nat) (q : Nat) (r : List Nat) (x : Triangle),
      WfTriangle x → List.drop q b = encodeTriangle x ++ r →
      q + (encodeTriangle x).length ≤ 18446744073709551615 →
      read_triangle b q = .ok (x, q + (encodeTriangle x).length) := by
    intro b q r x hx hdr _
    rw [encodeTriangle_length]
    exact read_triangle_enc hdr hx
  have hrdTex : ∀ (b : List Nat) (q : Nat) (r : List Nat) (x : TexCoord),
      WfTexCoord x → List.drop q b = encodeTexCoord x ++ r →
      q + (encodeTexCoord x).length ≤ 18446744073709551615 →
      read_tex_coord b q = .ok (x, q + (encodeTexCoord x).length) := by
    intro b q r x hx hdr _
    rw [encodeTexCoord_length]
    exact read_tex_coord_enc hdr hx
  have hrdVert : ∀ (b : List Nat) (q : Nat) (r : List Nat) (x : Vertex),
      WfVertex x → List.drop q b = encodeVertex x ++ r →
      q + (encodeVertex x).length ≤ 18446744073709551615 →
      read_vertex b q = .ok (x, q + (encodeVertex x).length) := by
    intro b q r x hx hdr _
    rw [encodeVertex_length]
    exact read_vertex_enc hdr hx
  have hrdRow : ∀ (b : List Nat) (q : Nat) (r : List Nat) (row : List Vertex),
      (row.length = s.tex_coords.length ∧ ∀ v ∈ row, WfVertex v) →
      List.drop q b = encMany encodeVertex row ++ r →
      q + (encMany encodeVertex row).length ≤ 18446744073709551615 →
      read_many read_vertex s.tex_coords.length b q =
        .ok (row, q + (encMany encodeVertex row).length) := by
    intro b q r row hx hdr hbd
    have := read_many_enc hrdVert row b r q hx.2 hdr hbd
    rw [hx.1] at this
    exact this
  have stepShaders := read_many_enc hrdShader s.shaders buf _ (p + 108) w22 hb2
    (by omega)
  rw [lShaders] at stepShaders
  have stepTris := read_many_enc hrdTri s.triangles buf _
    (p + 108 + 68 * s.shaders.length) w23 hb3 (by omega)
  rw [lTris] at stepTris
  have stepTexs := read_many_enc hrdTex s.tex_coords buf _
    (p + 108 + 68 * s.shaders.length + 12 * s.triangles.length) w24 hb4
    (by omega)
  rw [lTexs] at stepTexs
  have hvertsP : ∀ row ∈ s.vertices,
      row.length = s.tex_coords.length ∧ ∀ v ∈ row, WfVertex v :=
    fun row hr => ⟨w21 row hr, fun v hv => w25 row hr v hv⟩
  have stepVerts := read_many_enc hrdRow s.vertices buf _
    (p + 108 + 68 * s.shaders.length + 12 * s.triangles.length +
      8 * s.tex_coords.length) hvertsP hb5 (by omega)
  rw [lVerts] at stepVerts
  unfold read_surface
  simp only [bind_eq, pure_eq]
  refine bind_step (getPos_run buf p) ?_
  refine bind_step (read_surface_header_enc hb1
    ⟨w1, w2, w3, w9, w10, w11, w12, w18, w17, w19, w20, w4⟩) ?_
  refine bind_step (setPos_run _ buf _) ?_
  rw [e1, c1]
  refine bind_step stepShaders ?_
  refine bind_step (setPos_run _ buf _) ?_
  rw [e2, c2]
  refine bind_step stepTris ?_
  refine bind_step (setPos_run _ buf _) ?_
  rw [e3, c3]
  refine bind_step stepTexs ?_
  refine bind_step (setPos_run _ buf _) ?_
  rw [e4, c4]
  refine bind_step stepVerts ?_
  rw [pure_run, show p + 108 + 68 * s.shaders.length +
    12 * s.triangles.length + 8 * s.tex_coords.length +
    8 * s.tex_coords.length * s.vertices.length =
    p + (encodeSurface s).length from by omega]

/-! ## The encode-decode round trip -/

theorem from_bytes_encode {m : Md3} (hw : WfMd3 m) :
    from_bytes (encodeMd3 m) = .ok m := by
  obtain ⟨v1, v2, v3, v4, v5, v6, v7, v8, v9, v10, v11, v12, v13, v14, v15,
    v16, v17, v18, v19, v20, v21, v22⟩ := hw
  have widentR : WfI32 m.header.ident := by
    rw [v1]
    unfold WfI32 MD3_MAGIC
    norm_num
  have hdrW : WfHeaderFields m.header :=
    ⟨widentR, v2, v3, v4, v10, v11, v12, v5, v16, v17, v18, v6⟩
  have lH : (encodeHeader m.header).length = 108 := encodeHeader_length v3.1
  have lF : (encMany encodeFrame m.frames).length = 56 * m.frames.length :=
    encMany_length_const _ fun f hf => encodeFrame_length (v19 f hf).2.2.2.2.1
  have lT : (encMany encodeTag m.tags).length = 112 * m.tags.length :=
    encMany_length_const _ fun t ht => encodeTag_length (v20 t ht).1.1
  have hb0 : (encodeMd3 m).drop 0 = encodeHeader m.header ++
      (encMany encodeFrame m.frames ++ (encMany encodeTag m.tags ++
      (encMany encodeSurface m.surfaces ++ []))) := by
    simp [encodeMd3, List.append_assoc]
  have hbI : (encodeMd3 m).drop 0 = encodeI32 m.header.ident ++
      (encodeI32 m.header.version ++ encodeName 64 m.header.name ++
      encodeI32 m.header.flags ++ encodeI32 m.header.num_frames ++
      encodeI32 m.header.num_tags ++ encodeI32 m.header.num_surfaces ++
      encodeI32 m.header.num_skins ++ encodeI32 m.header.ofs_frames ++
      encodeI32 m.header.ofs_tags ++ encodeI32 m.header.ofs_surfaces ++
      encodeI32 m.header.ofs_eof ++ (encMany encodeFrame m.frames ++
      (encMany encodeTag m.tags ++ (encMany encodeSurface m.surfaces ++
      [])))) := by
    simp [encodeMd3, encodeHeader, List.append_assoc]
  have hb1 := drop_shift hb0 lH
  have hb2 := drop_shift hb1 lF
  have hb3 := drop_shift hb2 lT
  have lbuf : (encodeMd3 m).length = 108 + 56 * m.frames.length +
      112 * m.tags.length + (encMany encodeSurface m.surfaces).length := by
    simp only [encodeMd3, List.length_append, lH, lF, lT]
  have eofs1 : i32ToU64 m.header.ofs_frames = 108 :=
    i32ToU64_eq_nat (by rw [v13]; norm_cast) (by omega)
  have ecnt1 : i32ToU64 m.header.num_frames = m.frames.length :=
    i32ToU64_eq_nat v7 (by have h := v10.2; rw [v7] at h; omega)
  have eofs2 : i32ToU64 m.header.ofs_tags = 108 + 56 * m.frames.length :=
    i32ToU64_eq_nat (by rw [v14]; push_cast; ring)
      (by have h := v17.2; rw [v14] at h; omega)
  have ecnt2 : i32ToU64 m.header.num_tags = m.tags.length :=
    i32ToU64_eq_nat v8 (by have h := v11.2; rw [v8] at h; omega)
  have eofs3 : i32ToU64 m.header.ofs_surfaces =
      108 + 56 * m.frames.length + 112 * m.tags.length :=
    i32ToU64_eq_nat (by rw [v15]; push_cast; ring)
      (by have h := v18.2; rw [v15] at h; omega)
  have ecnt3 : i32ToU64 m.header.num_surfaces = m.surfaces.length :=
    i32ToU64_eq_nat v9 (by have h := v12.2; rw [v9] at h; omega)
  have hrdFrame : ∀ (b : List Nat) (q : Nat) (r : List Nat) (x : Frame),
      WfFrame x → List.drop q b = encodeFrame x ++ r →
      q + (encodeFrame x).length ≤ 18446744073709551615 →
      read_frame b q = .ok (x, q + (encodeFrame x).length) := by
    intro b q r x hx hdr _
    rw [encodeFrame_length hx.2.2.2.2.1]
    exact read_frame_enc hdr hx
  have hrdTag : ∀ (b : List Nat) (q : Nat) (r : List Nat) (x : Tag),
      WfTag x → List.drop q b = encodeTag x ++ r →
      q + (encodeTag x).length ≤ 18446744073709551615 →
      read_tag b q = .ok (x, q + (encodeTag x).length) := by
    intro b q r x hx hdr _
    rw [encodeTag_length hx.1.1]
    exact read_tag_enc hdr hx
  have hrdSurf : ∀ (b : List Nat) (q : Nat) (r : List Nat) (x : Surface),
      WfSurface x → List.drop q b = encodeSurface x ++ r →
      q + (encodeSurface x).length ≤ 18446744073709551615 →
      read_surface b q = .ok (x, q + (encodeSurface x).length) := by
    intro b q r x hx hdr hbd
    exact read_surface_enc hdr hx (by omega)
  have stepFrames := read_many_enc hrdFrame m.frames (encodeMd3 m) _ 108 v19
    hb1 (by omega)
  rw [lF] at stepFrames
  have stepTags := read_many_enc hrdTag m.tags (encodeMd3 m) _
    (108 + 56 * m.frames.length) v20 hb2 (by omega)
  rw [lT] at stepTags
  have stepSurfs := read_many_enc hrdSurf m.surfaces (encodeMd3 m) _
    (108 + 56 * m.frames.length + 112 * m.tags.length) v21 hb3 (by omega)
  have hm : from_bytes_m (encodeMd3 m) 0 = .ok (m, 108 + 56 * m.frames.length +
      112 * m.tags.length + (encMany encodeSurface m.surfaces).length) := by
    unfold from_bytes_m
    refine bind_step (read_s32_enc hbI widentR) ?_
    show (if m.header.ident = MD3_MAGIC then decode_body
      else M.fail DecErr.invalidMagic) (encodeMd3 m) 4 = _
    rw [v1, if_pos rfl]
    unfold decode_body
    simp only [bind_eq, pure_eq]
    refine bind_step (setPos_run 0 _ 4) ?_
    refine bind_step (read_md3_header_enc hb0 hdrW) ?_
    refine bind_step (setPos_run _ _ _) ?_
    rw [eofs1, ecnt1]
    refine bind_step stepFrames ?_
    refine bind_step (setPos_run _ _ _) ?_
    rw [eofs2, ecnt2]
    refine bind_step stepTags ?_
    refine bind_step (setPos_run _ _ _) ?_
    rw [eofs3, ecnt3]
    refine bind_step stepSurfs ?_
    rw [pure_run]
  unfold from_bytes
  rw [hm]

/-! ## Inversion lemmas on successful decodes -/

theorem read_u8_pos {buf : List Nat} {p b q : Nat}
    (h : read_u8 buf p = .ok (b, q)) : q = p + 1 := by
  unfold read_u8 at h
  cases hd : buf.drop p with
  | nil => rw [hd] at h; cases h
  | cons a t =>
    rw [hd] at h
    cases h
    rfl

theorem read_bytes_pos : ∀ {n : Nat} {buf : List Nat} {p : Nat}
    {bs : List Nat} {q : Nat}, read_bytes n buf p = .ok (bs, q) → q = p + n := by
  intro n
  induction n with
  | zero =>
    intro buf p bs q h
    unfold read_bytes M.pure at h
    cases h
    rfl
  | succ k ih =>
    intro buf p bs q h
    unfold read_bytes at h
    simp only [bind_eq, pure_eq] at h
    obtain ⟨b, q1, h1, h⟩ := bind_ok h
    obtain ⟨tl, q2, h2, h⟩ := bind_ok h
    unfold M.pure at h
    cases h
    have e1 := read_u8_pos h1
    have e2 := ih h2
    omega

theorem read_string_pos {buf : List Nat} {p len : Nat} {r : List Nat} {q : Nat}
    (h : read_string len buf p = .ok (r, q)) : q = p + len := by
  unfold read_string at h
  simp only [bind_eq, pure_eq] at h
  obtain ⟨bs, q1, h1, h⟩ := bind_ok h
  have e1 := read_bytes_pos h1
  cases hval : validUtf8 (bs.takeWhile fun b => b != 0) with
  | true =>
    rw [hval] at h
    simp only [if_true] at h
    unfold M.pure at h
    cases h
    omega
  | false =>
    rw [hval] at h
    simp only [Bool.false_eq_true, if_false] at h
    unfold M.fail at h
    cases h

theorem toSigned32_range (u : Nat) :
    -2147483648 ≤ toSigned32 u ∧ toSigned32 u < 2147483648 := by
  unfold toSigned32
  split <;> constructor <;> omega

theorem read_s32_range {buf : List Nat} {p : Nat} {v : Int} {q : Nat}
    (h : read_s32 buf p = .ok (v, q)) :
    -2147483648 ≤ v ∧ v < 2147483648 := by
  unfold read_s32 at h
  rcases hd : buf.drop p with _ | ⟨a, _ | ⟨b, _ | ⟨c, _ | ⟨d, t⟩⟩⟩⟩ <;>
    rw [hd] at h <;> cases h
  exact toSigned32_range _

theorem read_md3_header_ident {buf : List Nat} {p : Nat} {hdr : Md3Header}
    {q : Nat} (h : read_md3_header buf p = .ok (hdr, q)) :
    ∃ r, read_s32 buf p = .ok (hdr.ident, r) := by
  unfold read_md3_header at h
  simp only [bind_eq, pure_eq] at h
  obtain ⟨a1, q1, h1, h⟩ := bind_ok h
  obtain ⟨a2, q2, h2, h⟩ := bind_ok h
  obtain ⟨a3, q3, h3, h⟩ := bind_ok h
  obtain ⟨a4, q4, h4, h⟩ := bind_ok h
  obtain ⟨a5, q5, h5, h⟩ := bind_ok h
  obtain ⟨a6, q6, h6, h⟩ := bind_ok h
  obtain ⟨a7, q7, h7, h⟩ := bind_ok h
  obtain ⟨a8, q8, h8, h⟩ := bind_ok h
  obtain ⟨a9, q9, h9, h⟩ := bind_ok h
  obtain ⟨a10, q10, h10, h⟩ := bind_ok h
  obtain ⟨a11, q11, h11, h⟩ := bind_ok h
  obtain ⟨a12, q12, h12, h⟩ := bind_ok h
  unfold M.pure at h
  cases h
  exact ⟨q1, h1⟩

theorem read_surface_header_counts_range {buf : List Nat} {p : Nat}
    {hdr : SurfaceHeader} {q : Nat}
    (h : read_surface_header buf p = .ok (hdr, q)) :
    (-2147483648 ≤ hdr.num_frames ∧ hdr.num_frames < 2147483648) ∧
    (-2147483648 ≤ hdr.num_verts ∧ hdr.num_verts < 2147483648) := by
  unfold read_surface_header at h
  simp only [bind_eq, pure_eq] at h
  obtain ⟨a1, q1, h1, h⟩ := bind_ok h
  obtain ⟨a2, q2, h2, h⟩ := bind_ok h
  obtain ⟨a3, q3, h3, h⟩ := bind_ok h
  obtain ⟨a4, q4, h4, h⟩ := bind_ok h
  obtain ⟨a5, q5, h5, h⟩ := bind_ok h
  obtain ⟨a6, q6, h6, h⟩ := bind_ok h
  obtain ⟨a7, q7, h7, h⟩ := bind_ok h
  obtain ⟨a8, q8, h8, h⟩ := bind_ok h
  obtain ⟨a9, q9, h9, h⟩ := bind_ok h
  obtain ⟨a10, q10, h10, h⟩ := bind_ok h
  obtain ⟨a11, q11, h11, h⟩ := bind_ok h
  obtain ⟨a12, q12, h12, h⟩ := bind_ok h
  unfold M.pure at h
  cases h
  exact ⟨read_s32_range h4, read_s32_range h6⟩

theorem read_many_ok_length {α : Type} {rd : M α} : ∀ {n : Nat}
    {buf : List Nat} {p : Nat} {l : List α} {q : Nat},
    read_many rd n buf p = .ok (l, q) → l.length = n := by
  intro n
  induction n with
  | zero =>
    intro buf p l q h
    unfold read_many M.pure at h
    cases h
    rfl
  | succ k ih =>
    intro buf p l q h
    unfold read_many at h
    simp only [bind_eq, pure_eq] at h
    obtain ⟨a, q1, h1, h⟩ := bind_ok h
    obtain ⟨tl, q2, h2, h⟩ := bind_ok h
    unfold M.pure at h
    cases h
    simp [ih h2]

theorem read_many_ok_forall {α : Type} {rd : M α} {P : α → Prop}
    (hP : ∀ (b : List Nat) (p : Nat) (a : α) (q : Nat),
      rd b p = .ok (a, q) → P a) :
    ∀ {n : Nat} {buf : List Nat} {p : Nat} {l : List α} {q : Nat},
    read_many rd n buf p = .ok (l, q) → ∀ x ∈ l, P x := by
  intro n
  induction n with
  | zero =>
    intro buf p l q h
    unfold read_many M.pure at h
    cases h
    intro x hx
    cases hx
  | succ k ih =>
    intro buf p l q h
    unfold read_many at h
    simp only [bind_eq, pure_eq] at h
    obtain ⟨a, q1, h1, h⟩ := bind_ok h
    obtain ⟨tl, q2, h2, h⟩ := bind_ok h
    unfold M.pure at h
    cases h
    intro x hx
    rcases List.mem_cons.mp hx with hx | hx
    · rw [hx]; exact hP buf p a q1 h1
    · exact ih h2 x hx

theorem ok_inj {α : Type} {a b : α} {p q : Nat}
    (h : (Except.ok (a, p) : Except DecErr (α × Nat)) = .ok (b, q)) :
    a = b ∧ p = q := by
  cases h
  exact ⟨rfl, rfl⟩

theorem read_surface_inv {buf : List Nat} {p : Nat} {s : Surface} {q : Nat}
    (h : read_surface buf p = .ok (s, q)) :
    ∃ q1 q2 q3 q4 q5,
      read_surface_header buf p = .ok (s.header, q1) ∧
      read_many read_shader (i32ToU64 s.header.num_shaders) buf
        (addOfs p s.header.ofs_shaders) = .ok (s.shaders, q2) ∧
      read_many read_triangle (i32ToU64 s.header.num_triangles) buf
        (addOfs p s.header.ofs_triangles) = .ok (s.triangles, q3) ∧
      read_many read_tex_coord (i32ToU64 s.header.num_verts) buf
        (addOfs p s.header.ofs_st) = .ok (s.tex_coords, q4) ∧
      read_many (read_many read_vertex (i32ToU64 s.header.num_verts))
        (i32ToU64 s.header.num_frames) buf
        (addOfs p s.header.ofs_xyznormal) = .ok (s.vertices, q5) := by
  unfold read_surface at h
  simp only [bind_eq, pure_eq] at h
  obtain ⟨p0, q0, hp0, h⟩ := bind_ok h
  rw [getPos_run] at hp0
  obtain ⟨ep0, eq0⟩ := ok_inj hp0
  subst ep0
  subst eq0
  obtain ⟨hdr, q1, hhdr, h⟩ := bind_ok h
  obtain ⟨u1, r1, hs1, h⟩ := bind_ok h
  rw [setPos_run] at hs1
  obtain ⟨_, er1⟩ := ok_inj hs1
  subst er1
  obtain ⟨sh, q2, hsh, h⟩ := bind_ok h
  obtain ⟨u2, r2, hs2, h⟩ := bind_ok h
  rw [setPos_run] at hs2
  obtain ⟨_, er2⟩ := ok_inj hs2
  subst er2
  obtain ⟨tr, q3, htr, h⟩ := bind_ok h
  obtain ⟨u3, r3, hs3, h⟩ := bind_ok h
  rw [setPos_run] at hs3
  obtain ⟨_, er3⟩ := ok_inj hs3
  subst er3
  obtain ⟨st, q4, hst, h⟩ := bind_ok h
  obtain ⟨u4, r4, hs4, h⟩ := bind_ok h
  rw [setPos_run] at hs4
  obtain ⟨_, er4⟩ := ok_inj hs4
  subst er4
  obtain ⟨vx, q5, hvx, h⟩ := bind_ok h
  unfold M.pure at h
  obtain ⟨es, _⟩ := ok_inj h
  subst es
  exact ⟨q1, q2, q3, q4, q5, hhdr, hsh, htr, hst, hvx⟩

theorem from_bytes_ok_inv {buf : List Nat} {m : Md3}
    (h : from_bytes buf = .ok m) :
    (∃ q1, read_s32 buf 0 = .ok (MD3_MAGIC, q1)) ∧
    ∃ q2 q3 q4 q5,
      read_md3_header buf 0 = .ok (m.header, q2) ∧
      read_many read_frame (i32ToU64 m.header.num_frames) buf
        (i32ToU64 m.header.ofs_frames) = .ok (m.frames, q3) ∧
      read_many read_tag (i32ToU64 m.header.num_tags) buf
        (i32ToU64 m.header.ofs_tags) = .ok (m.tags, q4) ∧
      read_many read_surface (i32ToU64 m.header.num_surfaces) buf
        (i32ToU64 m.header.ofs_surfaces) = .ok (m.surfaces, q5) := by
  unfold from_bytes at h
  have hm0 : ∃ qf, from_bytes_m buf 0 = .ok (m, qf) := by
    cases hfm : from_bytes_m buf 0 with
    | ok mq =>
      rw [hfm] at h
      cases h
      exact ⟨mq.2, rfl⟩
    | error e => rw [hfm] at h; cases h
  obtain ⟨qf, hm⟩ := hm0
  unfold from_bytes_m at hm
  obtain ⟨v, q1, hv, hm⟩ := bind_ok hm
  by_cases hmag : v = MD3_MAGIC
  · subst hmag
    rw [if_pos rfl] at hm
    unfold decode_body at hm
    simp only [bind_eq, pure_eq] at hm
    obtain ⟨u0, r0, hs0, hm⟩ := bind_ok hm
    rw [setPos_run] at hs0
    obtain ⟨_, er0⟩ := ok_inj hs0
    subst er0
    obtain ⟨hdr, q2, hhdr, hm⟩ := bind_ok hm
    obtain ⟨u1, r1, hs1, hm⟩ := bind_ok hm
    rw [setPos_run] at hs1
    obtain ⟨_, er1⟩ := ok_inj hs1
    subst er1
    obtain ⟨frames, q3, hframes, hm⟩ := bind_ok hm
    obtain ⟨u2, r2, hs2, hm⟩ := bind_ok hm
    rw [setPos_run] at hs2
    obtain ⟨_, er2⟩ := ok_inj hs2
    subst er2
    obtain ⟨tags, q4, htags, hm⟩ := bind_ok hm
    obtain ⟨u3, r3, hs3, hm⟩ := bind_ok hm
    rw [setPos_run] at hs3
    obtain ⟨_, er3⟩ := ok_inj hs3
    subst er3
    obtain ⟨surfaces, q5, hsurfs, hm⟩ := bind_ok hm
    unfold M.pure at hm
    obtain ⟨em, _⟩ := ok_inj hm
    subst em
    exact ⟨⟨q1, hv⟩, q2, q3, q4, q5, hhdr, hframes, htags, hsurfs⟩
  · rw [if_neg hmag] at hm
    unfold M.fail at hm
    cases hm

/-! ## Concrete data for witnesses and counterexamples -/

/-- Top-level header of the C1 failing input: two surfaces, no frames, no
tags, surfaces section right after the 108-byte header. -/
def c1ModelHeader : Md3Header :=
  { ident := 0x33504449, version := 15, name := [], flags := 0,
    num_frames := 0, num_tags := 0, num_surfaces := 2, num_skins := 0,
    ofs_frames := 108, ofs_tags := 108, ofs_surfaces := 108, ofs_eof := 328 }

/-- First surface of the C1 failing input: all sub-arrays empty and placed
right after its 108-byte header, but `ofs_end = 112`, so 4 padding bytes
separate the end of its sub-arrays from the next surface. -/
def c1Surface1Header : SurfaceHeader :=
  { ident := 0x33504449, name := [65], flags := 0, num_frames := 0,
    num_shaders := 0, num_verts := 0, num_triangles := 0, ofs_triangles := 108,
    ofs_shaders := 108, ofs_st := 108, ofs_xyznormal := 108, ofs_end := 112 }

/-- Second surface of the C1 failing input, physically located at byte
220 = 108 (surface 1 start) + 112 (surface 1 `ofs_end`). -/
def c1Surface2Header : SurfaceHeader :=
  { ident := 0x33504449, name := [66], flags := 0, num_frames := 0,
    num_shaders := 0, num_verts := 0, num_triangles := 0, ofs_triangles := 108,
    ofs_shaders := 108, ofs_st := 108, ofs_xyznormal := 108, ofs_end := 108 }

/-- The C1 failing input: header, surface 1, four padding bytes, surface 2.
Surface 1's `ofs_end` points exactly at surface 2's header. -/
def c1Buf : List Nat :=
  encodeHeader c1ModelHeader ++ encodeSurfaceHeader c1Surface1Header ++
  [0, 0, 0, 0] ++ encodeSurfaceHeader c1Surface2Header

/-- The header of a model that fails to round-trip: `ident` is not the
magic. -/
def c2BadHeader : Md3Header :=
  { ident := 0, version := 15, name := [], flags := 0, num_frames := 0,
    num_tags := 0, num_surfaces := 0, num_skins := 0, ofs_frames := 108,
    ofs_tags := 108, ofs_surfaces := 108, ofs_eof := 108 }

/-- A model that fails to round-trip: its `ident` field is not the magic. -/
def c2BadModel : Md3 :=
  { header := c2BadHeader, frames := [], tags := [], surfaces := [] }

def wfSurfaceHeader : SurfaceHeader :=
  { ident := 0x33504449, name := [83], flags := 0, num_frames := 1,
    num_shaders := 0, num_verts := 1, num_triangles := 0, ofs_triangles := 108,
    ofs_shaders := 108, ofs_st := 108, ofs_xyznormal := 116, ofs_end := 124 }

/-- A well-formed one-frame, one-vertex surface. -/
def wfSurface : Surface :=
  { header := wfSurfaceHeader, shaders := [], triangles := [],
    tex_coords := [⟨(0, 1065353216)⟩], vertices := [[⟨1, -2, 3, 4⟩]] }

def wfModelHeader : Md3Header :=
  { ident := 0x33504449, version := 15, name := [109], flags := 0,
    num_frames := 1, num_tags := 0, num_surfaces := 1, num_skins := 0,
    ofs_frames := 108, ofs_tags := 164, ofs_surfaces := 164, ofs_eof := 288 }

def wfFrame : Frame :=
  { min_bounds := ⟨0, 0, 0⟩, max_bounds := ⟨0, 0, 0⟩,
    local_origin := ⟨0, 0, 0⟩, radius := 0, name := [102] }

/-- A well-formed one-frame, one-surface model. -/
def wfModel : Md3 :=
  { header := wfModelHeader, frames := [wfFrame], tags := [],
    surfaces := [wfSurface] }

/-- A buffer whose header name field starts with the byte `0xFF`, which is
not valid UTF-8, triggering the `String::from_utf8(..).unwrap()` panic. -/
def c5Buf : List Nat :=
  encodeI32 MD3_MAGIC ++ encodeI32 15 ++ (255 :: List.replicate 63 0)

/-- A structurally valid header with `num_surfaces = 0` and no frames or
tags; the whole file is just the 108-byte header. -/
def c8Header : Md3Header :=
  { ident := 0x33504449, version := 15, name := [], flags := 0,
    num_frames := 0, num_tags := 0, num_surfaces := 0, num_skins := 0,
    ofs_frames := 108, ofs_tags := 108, ofs_surfaces := 108, ofs_eof := 108 }

def c8Buf : List Nat := encodeHeader c8Header

def c8Model : Md3 := { header := c8Header, frames := [], tags := [], surfaces := [] }

/-! ## Remaining helper lemmas -/

theorem takeWhile_nul {name tail : List Nat} (h : ∀ b ∈ name, b ≠ 0) :
    (name ++ 0 :: tail).takeWhile (fun b => b != 0) = name := by
  induction name with
  | nil => simp [List.takeWhile]
  | cons b tl ih =>
    have hb : b ≠ 0 := h b (List.mem_cons_self b tl)
    simp only [List.cons_append, List.takeWhile_cons]
    simp only [bne_iff_ne, ne_eq, hb, not_false_eq_true, if_true]
    rw [ih (fun x hx => h x (List.mem_cons_of_mem b hx))]

theorem read_s32_on_4 {buf rest : List Nat} {p a b c d : Nat}
    (h : buf.drop p = a :: b :: c :: d :: rest) :
    read_s32 buf p =
      .ok (toSigned32 (a + 256 * b + 65536 * c + 16777216 * d), p + 4) := by
  unfold read_s32
  rw [h]

theorem list_take4 (l : List Nat) (h : 4 ≤ l.length) :
    ∃ a b c d, l.take 4 = [a, b, c, d] := by
  rcases l with _ | ⟨a, _ | ⟨b, _ | ⟨c, _ | ⟨d, t⟩⟩⟩⟩
  · simp at h
  · simp at h
  · simp at h
  · simp at h
  · exact ⟨a, b, c, d, by simp⟩

/-- The well-formedness of the concrete model `wfModel`: every scalar
conjunct is evaluated, and each collection is reduced to its single
element. -/
theorem wfModel_wf : WfMd3 wfModel := by
  repeat' apply And.intro
  all_goals first
    | decide
    | (intro x hx
       first
         | exact absurd hx (List.not_mem_nil x)
         | (have hx2 : x = wfFrame := by simpa [wfModel] using hx
            subst hx2
            decide)
         | (have hx2 : x = wfSurface := by simpa [wfModel] using hx
            subst hx2
            decide))

/-! ## The claims -/

/-- C1: the claim says that after decoding one surface the decoder seeks to
`surface_start + ofs_end` before decoding the next surface header.  The code
never uses `ofs_end`: it decodes the next surface wherever the cursor ends up
after the previous surface's vertex table.  On `c1Buf` — a two-surface file
whose first surface has four padding bytes before the second surface, with
`ofs_end = 112` pointing exactly at the second surface header at byte
220 = 108 + 112 — the code decodes the second surface header from byte 216
(the padding), yielding ident `0` and name `"IDP3B"`, while the real header
at `108 + ofs_end` has ident `0x33504449` and name `"B"`.  This theorem
evaluates the code at that failing input. -/
theorem claim_C1 :
    (from_bytes c1Buf).map (fun m => m.surfaces.map fun s => s.header.ident) =
      .ok [0x33504449, 0] ∧
    (from_bytes c1Buf).map (fun m => m.surfaces.map fun s => s.header.name) =
      .ok [[65], [73, 68, 80, 51, 66]] ∧
    read_surface_header c1Buf (108 + i32ToU64 c1Surface1Header.ofs_end) =
      .ok (c1Surface2Header, 328) ∧
    c1Surface2Header.ident = 0x33504449 ∧ c1Surface2Header.name = [66] := by
  decide

/-- C2 (counterexample to the claim as stated): the claim quantifies over
every `Md3` value, but a model whose `ident` is not the magic encodes to a
buffer that `from_bytes` rejects with the magic error, so the round trip
fails for it. -/
theorem claim_C2_cex :
    from_bytes (encodeMd3 c2BadModel) = .error DecErr.invalidMagic := by
  decide

/-- C2 (amended): for every well-formed model — magic `ident`, numeric
fields in `i32` range, names NUL-free valid UTF-8 within their fixed widths,
counts equal to the collection lengths, offsets equal to the tight
sequential §6 layout, total size below `2^63` — encoding with the §6 layout
and decoding with `from_bytes` reproduces the model bit for bit. -/
theorem claim_C2 : ∀ m : Md3, WfMd3 m → from_bytes (encodeMd3 m) = .ok m :=
  fun _ hw => from_bytes_encode hw

/-- C2 witness: the one-frame, one-surface model `wfModel` is well-formed
and round-trips. -/
theorem claim_C2_witness :
    WfMd3 wfModel ∧ from_bytes (encodeMd3 wfModel) = .ok wfModel :=
  ⟨wfModel_wf, claim_C2 wfModel wfModel_wf⟩

/-- C3 (counterexample to the claim as stated): on a buffer too short for
the first primitive read, the decode ends in `eofPanic` — the model of the
`.unwrap()` panic on the `UnexpectedEof` io error — not in an error value
returned from `from_bytes` (the only returned error is `invalidMagic`), so
"returned to the caller … not a crash" fails. -/
theorem claim_C3_cex : from_bytes [] = .error DecErr.eofPanic := by decide

/-- C3 (amended): every primitive read attempted with fewer bytes remaining
than it requires aborts the decode immediately by panicking with the
`UnexpectedEof` io error (modelled `DecErr.eofPanic`); in particular a
buffer shorter than 4 bytes makes `from_bytes` abort this way before
anything else happens.  The abort is fail-fast but it is a panic, not a
returned error value. -/
theorem claim_C3 :
    (∀ (buf : List Nat) (p : Nat), buf.length < p + 2 →
      read_s16 buf p = .error DecErr.eofPanic) ∧
    (∀ (buf : List Nat) (p : Nat), buf.length < p + 4 →
      read_s32 buf p = .error DecErr.eofPanic) ∧
    (∀ (buf : List Nat) (p : Nat), buf.length < p + 4 →
      read_f32 buf p = .error DecErr.eofPanic) ∧
    (∀ buf : List Nat, buf.length < 4 →
      from_bytes buf = .error DecErr.eofPanic) := by
  have h16 : ∀ (buf : List Nat) (p : Nat), buf.length < p + 2 →
      read_s16 buf p = .error DecErr.eofPanic := by
    intro buf p hb
    have hl : (buf.drop p).length < 2 := by
      simp only [List.length_drop]
      omega
    rcases hd : buf.drop p with _ | ⟨a, _ | ⟨b, t⟩⟩
    · unfold read_s16; rw [hd]
    · unfold read_s16; rw [hd]
    · rw [hd] at hl
      simp at hl
      omega
  have h32 : ∀ (buf : List Nat) (p : Nat), buf.length < p + 4 →
      read_s32 buf p = .error DecErr.eofPanic := by
    intro buf p hb
    have hl : (buf.drop p).length < 4 := by
      simp only [List.length_drop]
      omega
    rcases hd : buf.drop p with _ | ⟨a, _ | ⟨b, _ | ⟨c, _ | ⟨d, t⟩⟩⟩⟩
    · unfold read_s32; rw [hd]
    · unfold read_s32; rw [hd]
    · unfold read_s32; rw [hd]
    · unfold read_s32; rw [hd]
    · rw [hd] at hl
      simp at hl
      omega
  have hf32 : ∀ (buf : List Nat) (p : Nat), buf.length < p + 4 →
      read_f32 buf p = .error DecErr.eofPanic := by
    intro buf p hb
    have hl : (buf.drop p).length < 4 := by
      simp only [List.length_drop]
      omega
    rcases hd : buf.drop p with _ | ⟨a, _ | ⟨b, _ | ⟨c, _ | ⟨d, t⟩⟩⟩⟩
    · unfold read_f32; rw [hd]
    · unfold read_f32; rw [hd]
    · unfold read_f32; rw [hd]
    · unfold read_f32; rw [hd]
    · rw [hd] at hl
      simp at hl
      omega
  refine ⟨h16, h32, hf32, ?_⟩
  intro buf hb
  have hh := h32 buf 0 (by omega)
  unfold from_bytes from_bytes_m
  rw [bind_err _ _ _ _ _ hh]

/-- C3 witness: the amended statement applied at concrete short buffers. -/
theorem claim_C3_witness :
    read_s16 [7] 0 = .error DecErr.eofPanic ∧
    read_s32 [1, 2, 3] 0 = .error DecErr.eofPanic ∧
    read_f32 [1, 2, 3] 0 = .error DecErr.eofPanic ∧
    from_bytes [73, 68, 80] = .error DecErr.eofPanic :=
  ⟨claim_C3.1 [7] 0 (by decide), claim_C3.2.1 [1, 2, 3] 0 (by decide),
    claim_C3.2.2.1 [1, 2, 3] 0 (by decide),
    claim_C3.2.2.2 [73, 68, 80] (by decide)⟩

/-- C4: on a buffer of at least 4 bytes whose leading 32-bit little-endian
integer is not the magic, `from_bytes` returns the `invalidMagic` error, and
the result is the same for every buffer with the same first 4 bytes (nothing
past them is read); when the leading integer is the magic, any successful
decode carries a header decoded by `read_md3_header` from offset 0 (the
cursor is reset to 0 first). -/
theorem claim_C4 : ∀ buf : List Nat, 4 ≤ buf.length →
    (∀ v q, read_s32 buf 0 = .ok (v, q) → v ≠ MD3_MAGIC →
      from_bytes buf = .error DecErr.invalidMagic ∧
      ∀ buf2 : List Nat, buf2.take 4 = buf.take 4 →
        from_bytes buf2 = .error DecErr.invalidMagic) ∧
    (∀ v q, read_s32 buf 0 = .ok (v, q) → v = MD3_MAGIC →
      ∀ m, from_bytes buf = .ok m →
        ∃ r, read_md3_header buf 0 = .ok (m.header, r)) := by
  intro buf h4
  constructor
  · intro v q hv hne
    obtain ⟨a, b, c, d, habcd⟩ := list_take4 buf h4
    have hbuf : buf = [a, b, c, d] ++ buf.drop 4 := by
      conv_lhs => rw [← List.take_append_drop 4 buf]
      rw [habcd]
    have hb1 : buf.drop 0 = a :: b :: c :: d :: buf.drop 4 := by
      rw [List.drop_zero]
      exact hbuf
    have e1 := read_s32_on_4 hb1
    rw [hv] at e1
    obtain ⟨ev, eq4⟩ := ok_inj e1
    have hv4 : read_s32 buf 0 = .ok (v, 4) := by
      rw [hv, eq4]
    have hmain : ∀ buf3 : List Nat,
        read_s32 buf3 0 = .ok (v, 4) →
        from_bytes buf3 = .error DecErr.invalidMagic := by
      intro buf3 hv3
      have hm : from_bytes_m buf3 0 = .error DecErr.invalidMagic := by
        unfold from_bytes_m
        refine bind_step hv3 ?_
        show (if v = MD3_MAGIC then decode_body
          else M.fail DecErr.invalidMagic) buf3 4 = _
        rw [if_neg hne]
        rfl
      unfold from_bytes
      rw [hm]
    refine ⟨hmain buf hv4, ?_⟩
    · intro buf2 ht
      have htake2 : buf2.take 4 = [a, b, c, d] := by rw [ht, habcd]
      have h42 : 4 ≤ buf2.length := by
        have hlen := congrArg List.length htake2
        simp only [List.length_take] at hlen
        simp at hlen
        omega
      have hb2 : buf2.drop 0 = a :: b :: c :: d :: buf2.drop 4 := by
        rw [List.drop_zero]
        conv_lhs => rw [← List.take_append_drop 4 buf2]
        rw [htake2]
        rfl
      have e2 := read_s32_on_4 hb2
      rw [← ev] at e2
      have hv24 : read_s32 buf2 0 = .ok (v, 4) := by
        rw [e2]
      exact hmain buf2 hv24
  · intro v q hv hmag m hok
    obtain ⟨_, q2, _, _, _, hhdr, _, _, _⟩ := from_bytes_ok_inv hok
    exact ⟨q2, hhdr⟩

/-- C4 witness: the theorem applied to a 4-byte zero buffer whose leading
integer is not the magic. -/
theorem claim_C4_witness : from_bytes [0, 0, 0, 0] = .error DecErr.invalidMagic :=
  ((claim_C4 [0, 0, 0, 0] (by decide)).1 0 4 (by decide) (by decide)).1

/-- C5 (counterexample to the claim as stated): a buffer whose header name
field starts with the invalid byte `0xFF` makes the decode abort with
`utf8Panic` — the model of the `.unwrap()` panic on the `FromUtf8Error` of
`String::from_utf8` — not with an `InvalidEncoding` error value returned to
the caller. -/
theorem claim_C5_cex : from_bytes c5Buf = .error DecErr.utf8Panic := by decide

/-- C5 (amended): whenever the `len` bytes of a fixed-length string field
are present but their prefix before the first NUL is not valid UTF-8,
`read_string` aborts the decode by panicking on the failed `String::from_utf8`
conversion (modelled `DecErr.utf8Panic`).  The failure is fatal — no silent
replacement — but it is a panic, not an error value returned to the
caller. -/
theorem claim_C5 : ∀ (buf bs rest : List Nat) (p len : Nat),
    List.drop p buf = bs ++ rest → bs.length = len →
    validUtf8 (bs.takeWhile fun b => b != 0) = false →
    read_string len buf p = .error DecErr.utf8Panic := by
  intro buf bs rest p len hd hl hval
  subst hl
  have hb := read_bytes_enc bs buf rest p hd
  unfold read_string
  simp only [bind_eq, pure_eq]
  refine bind_step hb ?_
  simp only [hval, Bool.false_eq_true, if_false]
  rfl

/-- C5 witness: the amended statement at a concrete field whose non-NUL
prefix `[255]` is invalid UTF-8. -/
theorem claim_C5_witness : read_string 2 [255, 0, 7] 0 = .error DecErr.utf8Panic :=
  claim_C5 [255, 0, 7] [255, 0] [7] 0 2 rfl rfl rfl

/-- C6: a fixed-length field whose first NUL sits at position `k < len` with
a valid-UTF-8 non-NUL prefix decodes to exactly those `k` bytes, whatever
the bytes after the NUL are (they are quantified arbitrarily here). -/
theorem claim_C6 : ∀ (buf name rest2 rest : List Nat) (p len : Nat),
    List.drop p buf = (name ++ 0 :: rest2) ++ rest →
    (name ++ 0 :: rest2).length = len →
    (∀ b ∈ name, b ≠ 0) → validUtf8 name = true →
    read_string len buf p = .ok (name, p + len) ∧ name.length < len := by
  intro buf name rest2 rest p len hd hl hnz hval
  subst hl
  constructor
  · have hb := read_bytes_enc (name ++ 0 :: rest2) buf rest p hd
    unfold read_string
    simp only [bind_eq, pure_eq]
    refine bind_step hb ?_
    simp only [takeWhile_nul hnz, hval, if_true]
    rw [pure_run]
  · simp

/-- C6 witness: the field `[65, 66, 0, 9]` of width 4 decodes to exactly
`[65, 66]`. -/
theorem claim_C6_witness :
    read_string 4 [65, 66, 0, 9] 0 = .ok ([65, 66], 0 + 4) ∧
    ([65, 66] : List Nat).length < 4 :=
  claim_C6 [65, 66, 0, 9] [65, 66] [9] [] 0 4 rfl rfl (by decide) rfl

/-- C7: every successfully decoded surface has a vertex table of exactly
`num_frames` rows (outer index = frame) of exactly `num_verts` vertices
each, decoded by `read_many` starting at `surface_start + ofs_xyznormal`,
and a texture-coordinate list of exactly `num_verts` entries decoded
starting at `surface_start + ofs_st` (counts through the code's
sign-extending `usize` cast, which equals the declared count whenever the
field is non-negative). -/
theorem claim_C7 : ∀ (buf : List Nat) (p : Nat) (s : Surface) (q : Nat),
    read_surface buf p = .ok (s, q) →
    s.vertices.length = i32ToU64 s.header.num_frames ∧
    (∀ row ∈ s.vertices, row.length = i32ToU64 s.header.num_verts) ∧
    s.tex_coords.length = i32ToU64 s.header.num_verts ∧
    (0 ≤ s.header.num_frames →
      s.vertices.length = s.header.num_frames.toNat) ∧
    (0 ≤ s.header.num_verts →
      s.tex_coords.length = s.header.num_verts.toNat ∧
      ∀ row ∈ s.vertices, row.length = s.header.num_verts.toNat) ∧
    (∃ q4, read_many read_tex_coord (i32ToU64 s.header.num_verts) buf
      (addOfs p s.header.ofs_st) = .ok (s.tex_coords, q4)) ∧
    ∃ q5, read_many (read_many read_vertex (i32ToU64 s.header.num_verts))
      (i32ToU64 s.header.num_frames) buf (addOfs p s.header.ofs_xyznormal) =
      .ok (s.vertices, q5) := by
  intro buf p s q h
  obtain ⟨q1, q2, q3, q4, q5, hhdr, hsh, htr, hst, hvx⟩ := read_surface_inv h
  obtain ⟨hfr, hvr⟩ := read_surface_header_counts_range hhdr
  have lv : s.vertices.length = i32ToU64 s.header.num_frames :=
    read_many_ok_length hvx
  have lrow : ∀ row ∈ s.vertices, row.length = i32ToU64 s.header.num_verts :=
    read_many_ok_forall (fun b p2 a q6 ha => read_many_ok_length ha) hvx
  have lst : s.tex_coords.length = i32ToU64 s.header.num_verts :=
    read_many_ok_length hst
  have cf : 0 ≤ s.header.num_frames →
      i32ToU64 s.header.num_frames = s.header.num_frames.toNat := by
    intro h0
    unfold i32ToU64
    omega
  have cv : 0 ≤ s.header.num_verts →
      i32ToU64 s.header.num_verts = s.header.num_verts.toNat := by
    intro h0
    unfold i32ToU64
    omega
  refine ⟨lv, lrow, lst, ?_, ?_, ⟨q4, hst⟩, ⟨q5, hvx⟩⟩
  · intro h0
    rw [lv, cf h0]
  · intro h0
    exact ⟨by rw [lst, cv h0], fun row hr => by rw [lrow row hr, cv h0]⟩

/-- C7 witness: the theorem applied to the concrete surface buffer
`encodeSurface wfSurface`. -/
theorem claim_C7_witness :
    wfSurface.tex_coords.length = i32ToU64 wfSurface.header.num_verts ∧
    wfSurface.vertices.length = i32ToU64 wfSurface.header.num_frames := by
  have h := claim_C7 (encodeSurface wfSurface) 0 wfSurface 124 (by decide)
  exact ⟨h.2.2.1, h.1⟩

/-- C8: a buffer whose magic matches, whose header decodes with
`num_surfaces = 0`, and whose frames and tags sections decode, makes
`from_bytes` succeed with an empty surfaces list. -/
theorem claim_C8 : ∀ (buf : List Nat) (hdr : Md3Header) (q1 q2 q3 q4 : Nat)
    (frames : List Frame) (tags : List Tag),
    read_s32 buf 0 = .ok (MD3_MAGIC, q1) →
    read_md3_header buf 0 = .ok (hdr, q2) →
    hdr.num_surfaces = 0 →
    read_many read_frame (i32ToU64 hdr.num_frames) buf
      (i32ToU64 hdr.ofs_frames) = .ok (frames, q3) →
    read_many read_tag (i32ToU64 hdr.num_tags) buf (i32ToU64 hdr.ofs_tags) =
      .ok (tags, q4) →
    from_bytes buf =
      .ok { header := hdr, frames := frames, tags := tags, surfaces := [] } := by
  intro buf hdr q1 q2 q3 q4 frames tags hmag hhdr h0 hframes htags
  have hs0 : i32ToU64 hdr.num_surfaces = 0 := by
    rw [h0]
    decide
  have hm : from_bytes_m buf 0 =
      .ok (⟨hdr, frames, tags, []⟩, i32ToU64 hdr.ofs_surfaces) := by
    unfold from_bytes_m
    refine bind_step hmag ?_
    show (if MD3_MAGIC = MD3_MAGIC then decode_body
      else M.fail DecErr.invalidMagic) buf q1 = _
    rw [if_pos rfl]
    unfold decode_body
    simp only [bind_eq, pure_eq]
    refine bind_step (setPos_run 0 buf q1) ?_
    refine bind_step hhdr ?_
    refine bind_step (setPos_run _ buf q2) ?_
    refine bind_step hframes ?_
    refine bind_step (setPos_run _ buf q3) ?_
    refine bind_step htags ?_
    refine bind_step (setPos_run _ buf q4) ?_
    rw [hs0]
    have hempty : read_many read_surface 0 buf (i32ToU64 hdr.ofs_surfaces) =
        .ok ([], i32ToU64 hdr.ofs_surfaces) := rfl
    refine bind_step hempty ?_
    rw [pure_run]
  unfold from_bytes
  rw [hm]

/-- C8 witness: the theorem applied to the concrete header-only buffer
`c8Buf` with `num_surfaces = 0`. -/
theorem claim_C8_witness : from_bytes c8Buf = .ok c8Model := by
  have h1 : read_s32 c8Buf 0 = .ok (MD3_MAGIC, 4) := by decide
  have h2 : read_md3_header c8Buf 0 = .ok (c8Header, 108) := by decide
  have h3 : c8Header.num_surfaces = 0 := rfl
  have h4 : read_many read_frame (i32ToU64 c8Header.num_frames) c8Buf
      (i32ToU64 c8Header.ofs_frames) = .ok ([], 108) := by decide
  have h5 : read_many read_tag (i32ToU64 c8Header.num_tags) c8Buf
      (i32ToU64 c8Header.ofs_tags) = .ok ([], 108) := by decide
  exact claim_C8 c8Buf c8Header 4 108 108 108 [] [] h1 h2 h3 h4 h5

/-- C9: every successful decode carries the magic in `header.ident`: the
magic check reads the first four bytes, the cursor is reset, and
`read_md3_header` re-reads the same four bytes as `ident`. -/
theorem claim_C9 : ∀ (buf : List Nat) (m : Md3),
    from_bytes buf = .ok m → m.header.ident = MD3_MAGIC := by
  intro buf m h
  obtain ⟨⟨q1, hv⟩, q2, _, _, _, hhdr, _, _, _⟩ := from_bytes_ok_inv h
  obtain ⟨r, hident⟩ := read_md3_header_ident hhdr
  rw [hv] at hident
  exact ((ok_inj hident).1).symm

/-- C9 witness: the theorem applied to the concrete successful decode of
`c8Buf`. -/
theorem claim_C9_witness : c8Model.header.ident = MD3_MAGIC :=
  claim_C9 c8Buf c8Model (by decide)

/-- C10: a fixed-length string read that completes always advances the
cursor by exactly `len` bytes, wherever (or whether) a NUL occurs in the
field. -/
theorem claim_C10 : ∀ (buf : List Nat) (p len : Nat) (r : List Nat) (q : Nat),
    read_string len buf p = .ok (r, q) → q = p + len :=
  fun _ _ _ _ _ h => read_string_pos h

/-- C10 witness: the theorem applied to a concrete 3-byte field whose NUL
sits at position 1: the cursor still advances by 3. -/
theorem claim_C10_witness : (3 : Nat) = 0 + 3 :=
  claim_C10 [65, 0, 99] 0 3 [65] 3 (by decide)

end MD3
